import Mathlib

/-!
Shallow embedding of the `sender-ft-lockup` contract (crates `hodl_model` and
the contract crate) for checking its natural-language specification.

Source files embedded directly:
  * `src/model/src/termination.rs`  — `VestingConditions`, `TerminationConfig`,
    `Lockup::terminate`;
  * `src/contract/src/lib.rs`       — `Contract` state and the entry points
    `claim`, `terminate`, `remove_from_deposit_whitelist`, `create_draft_group`,
    `create_drafts`, `discard_draft_group`, `delete_drafts`;
  * `src/contract/src/internal.rs`  — whitelist checks and the account→lockup
    index helpers.

The model crate's `schedule.rs`, `lockup.rs` and `draft.rs` are not part of the
available sources; the definitions taken from them are modelled from the spec
(each such definition carries a doc comment starting `Modelled from the spec:`).

Machine integers: balances are `u128` in the source; they are embedded as `Nat`
with explicit `2^128` bounds where the source uses checked arithmetic.
NEAR panics abort the whole transaction and revert every state change, so a
fallible entry point is embedded as `State → Except Err State`, and the
observable effect of a call is `stepCall`, which keeps the old state on error.
-/

abbrev AccountId := String

abbrev Balance := Nat

abbrev TimestampSec := Nat

/-- Upper bound of `u128`: checked additions in the source fail at `2^128`. -/
def U128_LIMIT : Nat := 2 ^ 128

/-- Error taxonomy of the spec (§7); panics in the source are embedded as these. -/
inductive Err where
  | NotFound
  | Unauthorized
  | InvalidState
  | InvalidTimestamp
  | Overflow
  | AlreadyTerminated
  | InvariantViolation
  deriving Repr, DecidableEq

/-- Association-list lookup keyed by decidable equality. -/
def alookup {α : Type} {β : Type} [DecidableEq α] (m : List (α × β)) (k : α) : Option β :=
  match m with
  | [] => none
  | (k', v) :: rest => if k' = k then some v else alookup rest k

/-- Insert-or-replace on an association list (map/`HashMap` insert semantics). -/
def ainsert {α : Type} {β : Type} [DecidableEq α] (k : α) (v : β) (m : List (α × β)) :
    List (α × β) :=
  match m with
  | [] => [(k, v)]
  | (k', v') :: rest => if k' = k then (k, v) :: rest else (k', v') :: ainsert k v rest

/-- Remove a key from an association list (map remove semantics). -/
def aremove {α : Type} {β : Type} [DecidableEq α] (k : α) (m : List (α × β)) :
    List (α × β) :=
  m.filter (fun p => p.1 ≠ k)

theorem alookup_ainsert_self {α β : Type} [DecidableEq α] (k : α) (v : β)
    (m : List (α × β)) : alookup (ainsert k v m) k = some v := by
  induction m with
  | nil => simp [ainsert, alookup]
  | cons p rest ih =>
    by_cases h : p.1 = k
    · simp [ainsert, h, alookup]
    · simp [ainsert, h, alookup, ih]

theorem alookup_ainsert_ne {α β : Type} [DecidableEq α] (k k' : α) (v : β)
    (m : List (α × β)) (h : k ≠ k') : alookup (ainsert k v m) k' = alookup m k' := by
  induction m with
  | nil => simp [ainsert, alookup, h]
  | cons p rest ih =>
    by_cases hp : p.1 = k
    · simp [ainsert, hp, alookup, h]
    · simp [ainsert, hp, alookup, ih]

theorem alookup_aremove_self {α β : Type} [DecidableEq α] (k : α)
    (m : List (α × β)) : alookup (aremove k m) k = none := by
  induction m with
  | nil => simp [aremove, alookup]
  | cons p rest ih =>
    by_cases hp : p.1 = k
    · simpa [aremove, hp] using ih
    · simpa [aremove, hp, alookup, List.filter] using ih

theorem alookup_aremove_ne {α β : Type} [DecidableEq α] (k k' : α)
    (m : List (α × β)) (h : k ≠ k') : alookup (aremove k m) k' = alookup m k' := by
  induction m with
  | nil => simp [aremove, alookup]
  | cons p rest ih =>
    by_cases hp : p.1 = k
    · have hk' : p.1 ≠ k' := by rw [hp]; exact h
      rw [show aremove k (p :: rest) = aremove k rest by simp [aremove, List.filter, hp]]
      rw [ih, show alookup (p :: rest) k' = alookup rest k' by simp [alookup, hk']]
    · rw [show aremove k (p :: rest) = p :: aremove k rest by
        simp [aremove, List.filter, hp]]
      by_cases hq : p.1 = k'
      · simp [alookup, hq]
      · simp [alookup, hq, ih]

/-- One vesting checkpoint: `(time, cumulative unlocked amount)` (spec §3). -/
structure Checkpoint where
  timestamp : TimestampSec
  balance : Balance
  deriving Repr, DecidableEq

/-- Modelled from the spec: `Schedule` (model crate `schedule.rs`, not in the
available sources) is an ordered sequence of checkpoints (§3). -/
structure Schedule where
  checkpoints : List Checkpoint
  deriving Repr, DecidableEq

/-- Modelled from the spec: `Schedule::total_balance` returns the
cumulative_unlocked of the last checkpoint (§4.1). -/
def Schedule.total_balance (s : Schedule) : Balance :=
  (s.checkpoints.getLast?).elim 0 (fun c => c.balance)

/-- Modelled from the spec: `Schedule::unlocked_balance t` returns the first
checkpoint's amount for `t` at or before the first checkpoint, the total for
`t` at or after the last, and otherwise the amount of the latest checkpoint
with time ≤ t (step semantics, §4.1). -/
def Schedule.unlocked_balance (s : Schedule) (t : TimestampSec) : Balance :=
  match s.checkpoints with
  | [] => 0
  | c :: rest =>
    (rest.foldl (fun acc cp => if cp.timestamp ≤ t then cp.balance else acc) c.balance)

/-- Modelled from the spec: `Schedule::terminate vested T` truncates the
checkpoint sequence so that `unlocked_balance` becomes `vested` for all
`t ≥ T` and is unaffected for `t < T` (§4.1). -/
def Schedule.terminate (s : Schedule) (vested : Balance) (T : TimestampSec) : Schedule :=
  ⟨s.checkpoints.filter (fun c => c.timestamp < T) ++ [⟨T, vested⟩]⟩

/-- Adjacent checkpoints are non-decreasing in time and cumulative amount. -/
def checkpointsMonotone : List Checkpoint → Bool
  | [] => true
  | [_] => true
  | a :: b :: rest =>
    (a.timestamp ≤ b.timestamp && a.balance ≤ b.balance) &&
      checkpointsMonotone (b :: rest)

/-- Modelled from the spec: schedule well-formedness required of a new draft
(§3, §4.3) — non-empty, with times and cumulative amounts non-decreasing. -/
def Schedule.isValid (s : Schedule) : Bool :=
  !s.checkpoints.isEmpty && checkpointsMonotone s.checkpoints

/-- Vesting policy of a termination config (`termination.rs`). -/
inductive VestingConditions where
  | SameAsLockupSchedule
  | Schedule (s : Schedule)
  deriving Repr, DecidableEq

/-- Termination config of a lockup (`termination.rs`). -/
structure TerminationConfig where
  beneficiary_id : AccountId
  vesting_schedule : VestingConditions
  deriving Repr, DecidableEq

/-- Modelled from the spec: `Lockup` (model crate `lockup.rs`, not in the
available sources) — owner, schedule, claimed balance, optional termination
config (§3). -/
structure Lockup where
  account_id : AccountId
  schedule : Schedule
  claimed_balance : Balance
  termination_config : Option TerminationConfig
  deriving Repr, DecidableEq

/-- Modelled from the spec: `Lockup::claim` computes
`unlocked = schedule.unlocked_balance(now)`, caps the requested amount at
`unlocked - claimed_balance`, increases `claimed_balance` by the capped amount
and returns it (§4.2). Returns `(claimed_amount, updated lockup)`. -/
def Lockup.claim (l : Lockup) (now : TimestampSec) (requested : Balance) :
    Balance × Lockup :=
  let unlocked := l.schedule.unlocked_balance now
  let capped := min requested (unlocked - l.claimed_balance)
  (capped, { l with claimed_balance := l.claimed_balance + capped })

/-- `Lockup::terminate` from `termination.rs`: takes the termination config
(failing when it is already gone), resolves the vesting policy, computes the
vested and unvested amounts, truncates the schedule when `unvested > 0`, and
returns `(unvested, beneficiary)` together with the updated lockup. -/
def Lockup.terminate (l : Lockup) (termination_timestamp : TimestampSec) :
    Except Err ((Balance × AccountId) × Lockup) :=
  match l.termination_config with
  | none => .error .AlreadyTerminated
  | some tc =>
    let total_balance := l.schedule.total_balance
    let vested_balance :=
      (match tc.vesting_schedule with
       | .SameAsLockupSchedule => l.schedule
       | .Schedule s => s).unlocked_balance termination_timestamp
    let unvested_balance := total_balance - vested_balance
    let schedule' :=
      if unvested_balance > 0 then l.schedule.terminate vested_balance termination_timestamp
      else l.schedule
    .ok ((unvested_balance, tc.beneficiary_id),
      { l with schedule := schedule', termination_config := none })

/-- Modelled from the spec: `Draft` (model crate `draft.rs`, not in the
available sources) — identical shape to a future lockup plus its group id (§3). -/
structure Draft where
  account_id : AccountId
  schedule : Schedule
  draft_group_id : Nat
  deriving Repr, DecidableEq

/-- Modelled from the spec: a draft's `total_balance` is the total of its
schedule (§3: a Draft is the specification of a future Lockup). -/
def Draft.total_balance (d : Draft) : Balance :=
  d.schedule.total_balance

/-- Modelled from the spec: `assert_new_valid` requires the draft's schedule to
be well-formed and non-empty (§4.3). -/
def Draft.assert_new_valid (d : Draft) : Bool :=
  d.schedule.isValid

/-- Modelled from the spec: lifecycle state of a draft group (§3). -/
inductive DraftGroupState where
  | Pending
  | Funded
  | Discarded
  deriving Repr, DecidableEq

/-- Modelled from the spec: `DraftGroup` — running total, member draft ids and
lifecycle state (§3). -/
structure DraftGroup where
  total_amount : Balance
  draft_indices : List Nat
  state : DraftGroupState
  deriving Repr, DecidableEq

/-- Modelled from the spec: a fresh draft group is empty and `Pending` (§4.3). -/
def DraftGroup.default : DraftGroup :=
  ⟨0, [], .Pending⟩

/-- Modelled from the spec: `assert_can_add_draft` fails when the group is
Funded or Discarded (§4.3). -/
def DraftGroup.can_add_draft (g : DraftGroup) : Bool :=
  g.state = .Pending

/-- Modelled from the spec: `assert_can_delete_draft` requires the group to be
draining, i.e. Discarded, not Pending or Funded (§4.3). -/
def DraftGroup.can_delete_draft (g : DraftGroup) : Bool :=
  g.state = .Discarded

/-- Modelled from the spec: `discard` fails when the group is already Funded,
otherwise transitions the state to Discarded (§4.3). -/
def DraftGroup.discard (g : DraftGroup) : Except Err DraftGroup :=
  match g.state with
  | .Funded => .error .InvalidState
  | _ => .ok { g with state := .Discarded }

/-- `HashSet::insert` on a draft-index set: no-op when already present. -/
def insertIdx (i : Nat) (l : List Nat) : List Nat :=
  if i ∈ l then l else i :: l

/-- Contract state (`lib.rs`): the persisted collections the embedded entry
points touch.  `lockups` is the dense `Vector<Lockup>`; the lookup maps are
association lists. -/
structure Contract where
  lockups : List Lockup
  account_lockups : List (AccountId × List Nat)
  deposit_whitelist : List AccountId
  draft_operators_whitelist : List AccountId
  next_draft_id : Nat
  drafts : List (Nat × Draft)
  next_draft_group_id : Nat
  draft_groups : List (Nat × DraftGroup)
  deriving Repr, DecidableEq

/-- `assert_deposit_whitelist` (`internal.rs`) as a boolean check. -/
def Contract.okDepositWhitelist (c : Contract) (a : AccountId) : Bool :=
  c.deposit_whitelist.contains a

/-- `assert_draft_operators_whitelist` (`internal.rs`) as a boolean check:
membership in the deposit whitelist or in the draft-operators whitelist. -/
def Contract.okDraftOperator (c : Contract) (a : AccountId) : Bool :=
  c.deposit_whitelist.contains a || c.draft_operators_whitelist.contains a

/-- `internal_save_account_lockups` (`internal.rs`): store the index set,
removing the entry when the set is empty. -/
def Contract.internal_save_account_lockups (c : Contract) (a : AccountId)
    (indices : List Nat) : Contract :=
  if indices.isEmpty then { c with account_lockups := aremove a c.account_lockups }
  else { c with account_lockups := ainsert a indices c.account_lockups }

/-- Fetch the lockups of a list of indices from the store; a dangling index is
a programmer-invariant violation (`unwrap` in `internal.rs`). -/
def fetchLockups (store : List Lockup) : List Nat → Except Err (List (Nat × Lockup))
  | [] => .ok []
  | i :: rest =>
    match store[i]? with
    | some l => (fetchLockups store rest).map (fun ps => (i, l) :: ps)
    | none => .error .InvariantViolation

/-- `internal_get_account_lockups` (`internal.rs`): all `(index, lockup)` pairs
of the account's index set, with `unwrap_or_default` on a missing entry. -/
def Contract.internal_get_account_lockups (c : Contract) (a : AccountId) :
    Except Err (List (Nat × Lockup)) :=
  fetchLockups c.lockups ((alookup c.account_lockups a).getD [])

/-- Ownership check of `internal_get_account_lockups_by_id` (`internal.rs`):
every requested id must be in the account's owned set. -/
def checkOwned (owned : List Nat) : List Nat → Except Err Unit
  | [] => .ok ()
  | i :: rest => if i ∈ owned then checkOwned owned rest else .error .NotFound

/-- `internal_get_account_lockups_by_id` (`internal.rs`): as above restricted to
the requested ids, failing when an id is not in the account's owned set. -/
def Contract.internal_get_account_lockups_by_id (c : Contract) (a : AccountId)
    (ids : List Nat) : Except Err (List (Nat × Lockup)) := do
  let owned := (alookup c.account_lockups a).getD []
  checkOwned owned ids
  fetchLockups c.lockups ids

/-- Checked `u128` addition (`checked_add` in `create_drafts`). -/
def checkedAdd (a b : Balance) : Except Err Balance :=
  if a + b < U128_LIMIT then .ok (a + b) else .error .Overflow

/-- `create_draft_group` (`lib.rs`): authorization, fresh id, insert an empty
default group. -/
def Contract.create_draft_group (c : Contract) (caller : AccountId) :
    Except Err (Contract × Nat) :=
  if c.okDraftOperator caller then
    let index := c.next_draft_group_id
    if (alookup c.draft_groups index).isSome then .error .InvariantViolation
    else
      .ok ({ c with
             next_draft_group_id := index + 1
             draft_groups := ainsert index DraftGroup.default c.draft_groups }, index)
  else .error .Unauthorized

/-- Accumulator of the `create_drafts` loop: the per-call draft-group cache
(`draft_group_lookup`), the draft counter, the draft map and the returned ids. -/
structure CDAcc where
  cache : List (Nat × DraftGroup)
  nextId : Nat
  drafts : List (Nat × Draft)
  ids : List Nat

/-- One iteration of the `create_drafts` loop (`lib.rs`): fetch the group from
the cache or the store, check it accepts drafts, check the draft, store it
under a fresh index, add its balance with checked addition, add the index to
the group's set. -/
def createDraftsStep (stGroups : List (Nat × DraftGroup)) (acc : CDAcc) (d : Draft) :
    Except Err CDAcc := do
  let g ← match alookup acc.cache d.draft_group_id with
    | some g => Except.ok g
    | none => match alookup stGroups d.draft_group_id with
      | some g => Except.ok g
      | none => Except.error .NotFound
  if g.can_add_draft then Except.ok () else Except.error .InvalidState
  if d.assert_new_valid then Except.ok () else Except.error .InvalidState
  let index := acc.nextId
  if (alookup acc.drafts index).isSome then Except.error .InvariantViolation
    else Except.ok ()
  let ta ← checkedAdd g.total_amount d.total_balance
  let g' : DraftGroup := { g with
                           total_amount := ta
                           draft_indices := insertIdx index g.draft_indices }
  Except.ok ⟨ainsert d.draft_group_id g' acc.cache, index + 1,
    ainsert index d acc.drafts, acc.ids ++ [index]⟩

/-- The `create_drafts` loop over the draft list. -/
def createDraftsGo (stGroups : List (Nat × DraftGroup)) :
    List Draft → CDAcc → Except Err CDAcc
  | [], acc => .ok acc
  | d :: rest, acc => do
    let acc' ← createDraftsStep stGroups acc d
    createDraftsGo stGroups rest acc'

/-- `create_drafts` (`lib.rs`): authorization, loop, then one write-back per
cached group. -/
def Contract.create_drafts (c : Contract) (caller : AccountId) (ds : List Draft) :
    Except Err (Contract × List Nat) := do
  if c.okDraftOperator caller then Except.ok () else Except.error .Unauthorized
  let acc ← createDraftsGo c.draft_groups ds ⟨[], c.next_draft_id, c.drafts, []⟩
  Except.ok ({ c with
    next_draft_id := acc.nextId
    drafts := acc.drafts
    draft_groups := acc.cache.foldl (fun gs kg => ainsert kg.1 kg.2 gs) c.draft_groups },
    acc.ids)

/-- `discard_draft_group` (`lib.rs`): authorization, lookup, discard, prune the
group when its draft set is already empty. -/
def Contract.discard_draft_group (c : Contract) (caller : AccountId) (gid : Nat) :
    Except Err Contract := do
  if c.okDraftOperator caller then Except.ok () else Except.error .Unauthorized
  let g ← match alookup c.draft_groups gid with
    | some g => Except.ok g
    | none => Except.error .NotFound
  let g' ← g.discard
  if g'.draft_indices.isEmpty then
    Except.ok { c with draft_groups := aremove gid c.draft_groups }
  else
    Except.ok { c with draft_groups := ainsert gid g' c.draft_groups }

/-- Accumulator of the `delete_drafts` loop: the per-call draft-group cache and
the draft map (drafts are removed inside the loop). -/
structure DDAcc where
  cache : List (Nat × DraftGroup)
  drafts : List (Nat × Draft)

/-- One iteration of the `delete_drafts` loop (`lib.rs`): remove the draft
(`NotFound` when absent), fetch its group from the cache or the store, check
the group accepts deletions, decrement the total (invariant: no underflow),
remove the index from the group's set (invariant: it was present). -/
def deleteDraftStep (stGroups : List (Nat × DraftGroup)) (acc : DDAcc) (draft_id : Nat) :
    Except Err DDAcc := do
  let d ← match alookup acc.drafts draft_id with
    | some d => Except.ok d
    | none => Except.error .NotFound
  let drafts' := aremove draft_id acc.drafts
  let g ← match alookup acc.cache d.draft_group_id with
    | some g => Except.ok g
    | none => match alookup stGroups d.draft_group_id with
      | some g => Except.ok g
      | none => Except.error .NotFound
  if g.can_delete_draft then Except.ok () else Except.error .InvalidState
  let amount := d.total_balance
  if g.total_amount ≥ amount then Except.ok () else Except.error .InvariantViolation
  if draft_id ∈ g.draft_indices then Except.ok () else Except.error .InvariantViolation
  let g' : DraftGroup := { g with
                           total_amount := g.total_amount - amount
                           draft_indices := g.draft_indices.erase draft_id }
  Except.ok ⟨ainsert d.draft_group_id g' acc.cache, drafts'⟩

/-- The `delete_drafts` loop over the id list. -/
def deleteDraftsGo (stGroups : List (Nat × DraftGroup)) :
    List Nat → DDAcc → Except Err DDAcc
  | [], acc => .ok acc
  | i :: rest, acc => do
    let acc' ← deleteDraftStep stGroups acc i
    deleteDraftsGo stGroups rest acc'

/-- Write-back of one cached group after `delete_drafts`: groups whose draft
set became empty are removed, the others are stored. -/
def deleteWriteBack (gs : List (Nat × DraftGroup)) (kg : Nat × DraftGroup) :
    List (Nat × DraftGroup) :=
  if kg.2.draft_indices.isEmpty then aremove kg.1 gs else ainsert kg.1 kg.2 gs

/-- `delete_drafts` (`lib.rs`): no authorization, loop, then write-back with
pruning of empty groups. -/
def Contract.delete_drafts (c : Contract) (ids : List Nat) : Except Err Contract := do
  let acc ← deleteDraftsGo c.draft_groups ids ⟨[], c.drafts⟩
  Except.ok { c with
    drafts := acc.drafts
    draft_groups := acc.cache.foldl deleteWriteBack c.draft_groups }

/-- Resolution of the `account_id`/`account_ids` pair accepted for API
compatibility by the whitelist endpoints (`lib.rs`). -/
def resolveAccountIds (account_id : Option AccountId)
    (account_ids : Option (List AccountId)) : Except Err (List AccountId) :=
  match account_ids with
  | some l => .ok l
  | none =>
    match account_id with
    | some a => .ok [a]
    | none => .error .InvalidState

/-- Removal of every listed account from a whitelist set (`UnorderedSet::remove`
per account in `remove_from_deposit_whitelist`). -/
def removeAll (wl : List AccountId) (ids : List AccountId) : List AccountId :=
  ids.foldl (fun w a => w.filter (fun x => x ≠ a)) wl

/-- `remove_from_deposit_whitelist` (`lib.rs`): authorization, remove every
listed account, then fail when the whitelist would be left empty. -/
def Contract.remove_from_deposit_whitelist (c : Contract) (caller : AccountId)
    (account_id : Option AccountId) (account_ids : Option (List AccountId)) :
    Except Err Contract := do
  if c.okDepositWhitelist caller then Except.ok () else Except.error .Unauthorized
  let ids ← resolveAccountIds account_id account_ids
  let wl := removeAll c.deposit_whitelist ids
  if wl = [] then Except.error .InvalidState
  else Except.ok { c with deposit_whitelist := wl }

/-- Post-state of a successful `terminate` (`lib.rs`): the mutated lockup is
persisted; when it is now fully drained (`total_balance == 0`) its index is
removed from the owner's index set, which is saved with empty-set pruning. -/
def terminatePost (c : Contract) (lockup_index : Nat) (l' : Lockup) : Contract :=
  let c' := { c with lockups := c.lockups.set lockup_index l' }
  if l'.schedule.total_balance = 0 then
    let indices := ((alookup c'.account_lockups l'.account_id).getD []).erase lockup_index
    c'.internal_save_account_lockups l'.account_id indices
  else c'

/-- `terminate` (`lib.rs`): authorization, lockup lookup, timestamp default and
check, `Lockup::terminate`, store write-back, index pruning of a fully drained
lockup. Returns the updated contract, the unvested amount and the beneficiary
of the transfer issued when `unvested > 0`. -/
def Contract.terminate (c : Contract) (caller : AccountId) (now : TimestampSec)
    (lockup_index : Nat) (tt : Option TimestampSec) :
    Except Err (Contract × Balance × AccountId) := do
  if c.okDepositWhitelist caller then Except.ok () else Except.error .Unauthorized
  let l ← match c.lockups[lockup_index]? with
    | some l => Except.ok l
    | none => Except.error .NotFound
  let termination_timestamp := tt.getD now
  if termination_timestamp ≥ now then Except.ok ()
    else Except.error .InvalidTimestamp
  let r ← l.terminate termination_timestamp
  Except.ok (terminatePost c lockup_index r.2, r.1.1, r.1.2)

/-- Resolution of one claim entry (`lib.rs` `claim`, explicit-amounts path): a
caller-supplied amount is used verbatim, an omitted one defaults to
`unlocked_balance(now) - claimed_balance` of the targeted lockup. -/
def resolveClaimEntry (now : TimestampSec) (byId : List (Nat × Lockup))
    (e : Nat × Option Balance) : Nat × Balance :=
  (e.1, match e.2 with
        | some a => a
        | none => (alookup byId e.1).elim 0
            (fun l => l.schedule.unlocked_balance now - l.claimed_balance))

/-- Accumulator of the `claim` settlement loop: the `lockups_by_id` cache, the
lockup store, the transfer lines and the running total. -/
structure CLAcc where
  byId : List (Nat × Lockup)
  lockups : List Lockup
  lockup_claims : List (Nat × Balance)
  total : Balance

/-- One iteration of the `claim` loop (`lib.rs`): apply `Lockup::claim` to the
cached lockup; when the claimed amount is positive, persist the lockup, add a
transfer line and add to the total; otherwise skip the lockup entirely. -/
def claimLoopStep (now : TimestampSec) (acc : CLAcc) (e : Nat × Balance) :
    Except Err CLAcc := do
  let l ← match alookup acc.byId e.1 with
    | some l => Except.ok l
    | none => Except.error .InvariantViolation
  let r := l.claim now e.2
  let acc' : CLAcc := { acc with byId := ainsert e.1 r.2 acc.byId }
  if r.1 > 0 then
    Except.ok { acc' with
      lockups := acc'.lockups.set e.1 r.2
      lockup_claims := acc'.lockup_claims ++ [(e.1, r.1)]
      total := acc'.total + r.1 }
  else Except.ok acc'

/-- The `claim` settlement loop over the resolved amounts. -/
def claimLoopGo (now : TimestampSec) :
    List (Nat × Balance) → CLAcc → Except Err CLAcc
  | [], acc => .ok acc
  | e :: rest, acc => do
    let acc' ← claimLoopStep now acc e
    claimLoopGo now rest acc'

/-- Final step of `claim` (`lib.rs`): one aggregate external transfer when the
total is positive, otherwise an immediate `Value 0` with no external call. -/
inductive ClaimFinish where
  | Transfer (receiver : AccountId) (amount : Balance) (lines : List (Nat × Balance))
  | Value (v : Balance)
  deriving Repr, DecidableEq

/-- Outcome of a `claim` call: updated state, transfer lines, aggregate amount
and how the call finishes. -/
structure ClaimOutcome where
  state : Contract
  lockup_claims : List (Nat × Balance)
  total_claim_amount : Balance
  finish : ClaimFinish
  deriving Repr

/-- `claim` (`lib.rs`): resolve the target lockups and per-lockup amounts
(either the caller-supplied list with optional amounts, or all owned lockups
with defaulted amounts), run the settlement loop, then either issue one
aggregate transfer or finish immediately with value 0. -/
def Contract.claim (c : Contract) (caller : AccountId) (now : TimestampSec)
    (amounts : Option (List (Nat × Option Balance))) : Except Err ClaimOutcome := do
  let resolved ← match amounts with
    | some amts => do
        let pairs ← c.internal_get_account_lockups_by_id caller (amts.map (fun e => e.1))
        let byId := pairs.foldl (fun m p => ainsert p.1 p.2 m) []
        let cam := (amts.map (resolveClaimEntry now byId)).foldl
          (fun m p => ainsert p.1 p.2 m) []
        Except.ok (cam, byId)
    | none => do
        let pairs ← c.internal_get_account_lockups caller
        let byId := pairs.foldl (fun m p => ainsert p.1 p.2 m) []
        let cam := byId.map (fun p =>
          (p.1, p.2.schedule.unlocked_balance now - p.2.claimed_balance))
        Except.ok (cam, byId)
  let acc ← claimLoopGo now resolved.1 ⟨resolved.2, c.lockups, [], 0⟩
  let finish :=
    if acc.total > 0 then ClaimFinish.Transfer caller acc.total acc.lockup_claims
    else ClaimFinish.Value 0
  Except.ok ⟨{ c with lockups := acc.lockups }, acc.lockup_claims, acc.total, finish⟩

/-- Draft-related entry points as one call type, for call sequences. -/
inductive DraftCall where
  | createGroup (caller : AccountId)
  | create (caller : AccountId) (ds : List Draft)
  | discard (caller : AccountId) (gid : Nat)
  | delete (ids : List Nat)

/-- Execute one draft call. -/
def draftCallExec (c : Contract) : DraftCall → Except Err Contract
  | .createGroup caller => (c.create_draft_group caller).map (fun r => r.1)
  | .create caller ds => (c.create_drafts caller ds).map (fun r => r.1)
  | .discard caller gid => c.discard_draft_group caller gid
  | .delete ids => c.delete_drafts ids

/-- Observable effect of one draft call: a panic aborts the transaction and
reverts every state change, so an error keeps the old state. -/
def stepDraftCall (c : Contract) (call : DraftCall) : Contract :=
  match draftCallExec c call with
  | .ok c' => c'
  | .error _ => c

/-- Run a sequence of draft calls. -/
def runDraftCalls (calls : List DraftCall) (c : Contract) : Contract :=
  calls.foldl stepDraftCall c

/-- Observable effect of one `delete_drafts` call. -/
def stepDeleteDrafts (c : Contract) (ids : List Nat) : Contract :=
  match c.delete_drafts ids with
  | .ok c' => c'
  | .error _ => c

/-- Observable effect of one `create_drafts` call. -/
def stepCreateDrafts (c : Contract) (caller : AccountId) (ds : List Draft) : Contract :=
  match c.create_drafts caller ds with
  | .ok r => r.1
  | .error _ => c

/-- Observable effect of one `terminate` call. -/
def stepTerminate (c : Contract) (caller : AccountId) (now : TimestampSec)
    (lockup_index : Nat) (tt : Option TimestampSec) : Contract :=
  match c.terminate caller now lockup_index tt with
  | .ok r => r.1
  | .error _ => c

/-- Observable effect of one `remove_from_deposit_whitelist` call. -/
def stepRemoveFromDepositWhitelist (c : Contract) (caller : AccountId)
    (account_id : Option AccountId) (account_ids : Option (List AccountId)) : Contract :=
  match c.remove_from_deposit_whitelist caller account_id account_ids with
  | .ok c' => c'
  | .error _ => c

/-- `new` (`lib.rs`): the initial contract state — empty collections, the two
whitelists from the arguments, both counters at 0. -/
def initContract (deposit_whitelist : List AccountId)
    (draft_operators_whitelist : Option (List AccountId)) : Contract :=
  ⟨[], [], deposit_whitelist, draft_operators_whitelist.getD [], 0, [], 0, []⟩


theorem alookup_eq_none_of_not_mem_keys {β : Type} {m : List (Nat × β)} {k : Nat}
    (h : k ∉ m.map Prod.fst) : alookup m k = none := by
  induction m with
  | nil => rfl
  | cons p rest ih =>
    simp only [List.map_cons, List.mem_cons] at h
    push_neg at h
    have hne : p.1 ≠ k := fun hh => h.1 hh.symm
    simp [alookup, hne, ih h.2]

/-- C10: the draft-operator authorization check used by `create_draft_group`,
`create_drafts` and `discard_draft_group` succeeds iff the caller is in the
deposit whitelist or in the draft-operators whitelist; in particular a
deposit-whitelist member is authorized even when absent from the
draft-operators whitelist, and an unauthorized caller makes each draft
operation fail with `Unauthorized`. -/
theorem draft_operator_authorized_iff (c : Contract) (a : AccountId)
    (ds : List Draft) (gid : Nat) :
    (c.okDraftOperator a = true ↔
      a ∈ c.deposit_whitelist ∨ a ∈ c.draft_operators_whitelist) ∧
    (a ∈ c.deposit_whitelist → a ∉ c.draft_operators_whitelist →
      c.okDraftOperator a = true) ∧
    (c.okDraftOperator a = false →
      c.create_draft_group a = .error .Unauthorized ∧
      c.create_drafts a ds = .error .Unauthorized ∧
      c.discard_draft_group a gid = .error .Unauthorized) := by
  refine ⟨?_, ?_, ?_⟩
  · simp [Contract.okDraftOperator]
  · intro h _
    simp [Contract.okDraftOperator, h]
  · intro h
    refine ⟨?_, ?_, ?_⟩
    · simp [Contract.create_draft_group, h]
    · simp [Contract.create_drafts, h, Bind.bind, Except.bind]
    · simp [Contract.discard_draft_group, h, Bind.bind, Except.bind]

theorem draft_operator_authorized_iff_witness :
    (initContract ["alice"] none).okDraftOperator "alice" = true :=
  (draft_operator_authorized_iff (initContract ["alice"] none) "alice" [] 0).2.1
    (by decide) (by decide)

/-- C9: `remove_from_deposit_whitelist` never empties the deposit whitelist: a
successful call leaves it non-empty, and a call whose removals would drain it
entirely fails — with `InvalidState` when the caller is authorized — and leaves
the state unchanged. -/
theorem remove_from_deposit_whitelist_never_empties (c : Contract)
    (caller : AccountId) (aid : Option AccountId) (aids : Option (List AccountId)) :
    (∀ c', c.remove_from_deposit_whitelist caller aid aids = .ok c' →
      c'.deposit_whitelist ≠ []) ∧
    (∀ ids, resolveAccountIds aid aids = .ok ids →
      removeAll c.deposit_whitelist ids = [] →
      (∃ e, c.remove_from_deposit_whitelist caller aid aids = .error e) ∧
      (c.okDepositWhitelist caller = true →
        c.remove_from_deposit_whitelist caller aid aids = .error .InvalidState) ∧
      stepRemoveFromDepositWhitelist c caller aid aids = c) := by
  by_cases hok : c.okDepositWhitelist caller
  · constructor
    · intro c' h
      rcases hres : resolveAccountIds aid aids with e | ids
      · simp [Contract.remove_from_deposit_whitelist, hok, hres, Bind.bind,
          Except.bind] at h
      · by_cases hempty : removeAll c.deposit_whitelist ids = []
        · simp [Contract.remove_from_deposit_whitelist, hok, hres, hempty,
            Bind.bind, Except.bind] at h
        · simp [Contract.remove_from_deposit_whitelist, hok, hres, hempty,
            Bind.bind, Except.bind] at h
          rw [← h]
          exact hempty
    · intro ids hres hempty
      refine ⟨⟨.InvalidState, ?_⟩, fun _ => ?_, ?_⟩ <;>
        simp [Contract.remove_from_deposit_whitelist, stepRemoveFromDepositWhitelist,
          hok, hres, hempty, Bind.bind, Except.bind]
  · simp only [Bool.not_eq_true] at hok
    constructor
    · intro c' h
      simp [Contract.remove_from_deposit_whitelist, hok, Bind.bind, Except.bind] at h
    · intro ids hres hempty
      refine ⟨⟨.Unauthorized, ?_⟩, fun hc => ?_, ?_⟩
      · simp [Contract.remove_from_deposit_whitelist, hok, Bind.bind, Except.bind]
      · rw [hc] at hok; exact absurd hok (by simp)
      · simp [stepRemoveFromDepositWhitelist, Contract.remove_from_deposit_whitelist,
          hok, Bind.bind, Except.bind]

theorem remove_from_deposit_whitelist_never_empties_witness :
    ((initContract ["alice"] none).remove_from_deposit_whitelist "alice"
      (some "alice") none = .error .InvalidState) :=
  ((remove_from_deposit_whitelist_never_empties (initContract ["alice"] none)
    "alice" (some "alice") none).2 ["alice"] rfl (by decide)).2.1 (by decide)


theorem getElem?_set_self {α : Type} (l : List α) (i : Nat) (a b : α)
    (h : l[i]? = some b) : (l.set i a)[i]? = some a := by
  induction l generalizing i with
  | nil => simp at h
  | cons x xs ih =>
    cases i with
    | zero => simp [List.set]
    | succ n =>
      simp only [List.set, List.getElem?_cons_succ] at h ⊢
      exact ih n h

theorem terminatePost_lockups (c : Contract) (idx : Nat) (l' : Lockup) :
    (terminatePost c idx l').lockups = c.lockups.set idx l' := by
  simp only [terminatePost, Contract.internal_save_account_lockups]
  split
  · split <;> rfl
  · rfl

/-- Vested amount at termination: the unlocked balance at the termination time
of the vesting-policy schedule — the lockup's own schedule for
`SameAsLockupSchedule`, the alternate schedule otherwise (`termination.rs`). -/
def vestedOf (l : Lockup) (tc : TerminationConfig) (T : TimestampSec) : Balance :=
  (match tc.vesting_schedule with
   | .SameAsLockupSchedule => l.schedule
   | .Schedule s => s).unlocked_balance T

/-- Example contract for the termination witnesses: one lockup owned by
`alice`, operator `op` on the deposit whitelist. -/
def terminationExampleContract : Contract :=
  ⟨[⟨"alice", ⟨[⟨0, 0⟩, ⟨100, 1000⟩]⟩, 0, some ⟨"payer", .SameAsLockupSchedule⟩⟩],
    [("alice", [0])], ["op"], [], 0, [], 0, []⟩

/-- C1: for a lockup with a live termination config, `terminate` requires
`termination_time ≥ now` (failing with `InvalidTimestamp` otherwise), computes
the vested amount as the vesting-policy schedule's `unlocked_balance` at the
termination time, sets `unvested = total_balance - vested`, truncates the
schedule exactly when `unvested > 0` (leaving it untouched otherwise), consumes
the termination config, and returns `(unvested, beneficiary)`. -/
theorem terminate_lockup_correct (c : Contract) (caller : AccountId)
    (now T : TimestampSec) (idx : Nat) (l : Lockup) (tc : TerminationConfig)
    (hok : c.okDepositWhitelist caller = true)
    (hl : c.lockups[idx]? = some l)
    (htc : l.termination_config = some tc) :
    (T < now → c.terminate caller now idx (some T) = .error .InvalidTimestamp) ∧
    (T ≥ now →
      ∃ c', c.terminate caller now idx (some T) =
          .ok (c', l.schedule.total_balance - vestedOf l tc T, tc.beneficiary_id) ∧
        c'.lockups[idx]? = some
          { account_id := l.account_id
            schedule :=
              if l.schedule.total_balance - vestedOf l tc T > 0 then
                l.schedule.terminate (vestedOf l tc T) T
              else l.schedule
            claimed_balance := l.claimed_balance
            termination_config := none }) := by
  constructor
  · intro hT
    have hT' : ¬(T ≥ now) := Nat.not_le.mpr hT
    simp [Contract.terminate, hok, hl, hT', Bind.bind, Except.bind]
  · intro hT
    have hterm : l.terminate T =
        .ok ((l.schedule.total_balance - vestedOf l tc T, tc.beneficiary_id),
          { account_id := l.account_id
            schedule :=
              if l.schedule.total_balance - vestedOf l tc T > 0 then
                l.schedule.terminate (vestedOf l tc T) T
              else l.schedule
            claimed_balance := l.claimed_balance
            termination_config := none }) := by
      simp [Lockup.terminate, htc, vestedOf]
    refine ⟨terminatePost c idx
      { account_id := l.account_id
        schedule :=
          if l.schedule.total_balance - vestedOf l tc T > 0 then
            l.schedule.terminate (vestedOf l tc T) T
          else l.schedule
        claimed_balance := l.claimed_balance
        termination_config := none }, ?_, ?_⟩
    · simp [Contract.terminate, hok, hl, hT, hterm, Bind.bind, Except.bind]
    · rw [terminatePost_lockups]
      exact getElem?_set_self c.lockups idx _ l hl

theorem terminate_lockup_correct_witness :
    terminationExampleContract.terminate "op" 10 0 (some 5) =
      .error .InvalidTimestamp :=
  (terminate_lockup_correct terminationExampleContract "op" 10 5 0
    ⟨"alice", ⟨[⟨0, 0⟩, ⟨100, 1000⟩]⟩, 0, some ⟨"payer", .SameAsLockupSchedule⟩⟩
    ⟨"payer", .SameAsLockupSchedule⟩ rfl rfl rfl).1 (by decide)

theorem terminate_ok_elim (c : Contract) (caller : AccountId) (now : TimestampSec)
    (idx : Nat) (tt : Option TimestampSec) (res : Contract × Balance × AccountId)
    (h : c.terminate caller now idx tt = .ok res) :
    c.okDepositWhitelist caller = true ∧
    ∃ l r, c.lockups[idx]? = some l ∧ tt.getD now ≥ now ∧
      l.terminate (tt.getD now) = .ok r ∧
      res = (terminatePost c idx r.2, r.1.1, r.1.2) := by
  by_cases hok : c.okDepositWhitelist caller
  · rcases hlk : c.lockups[idx]? with _ | l
    · simp [Contract.terminate, hok, hlk, Bind.bind, Except.bind] at h
    · by_cases hts : tt.getD now ≥ now
      · rcases hlt : l.terminate (tt.getD now) with e | r
        · simp [Contract.terminate, hok, hlk, hts, hlt, Bind.bind, Except.bind] at h
        · refine ⟨hok, l, r, rfl, hts, hlt, ?_⟩
          simp [Contract.terminate, hok, hlk, hts, hlt, Bind.bind, Except.bind] at h
          exact h.symm
      · simp [Contract.terminate, hok, hlk, hts, Bind.bind, Except.bind] at h
  · simp only [Bool.not_eq_true] at hok
    simp [Contract.terminate, hok, Bind.bind, Except.bind] at h

theorem lockup_terminate_ok_config_none (l : Lockup) (T : TimestampSec)
    (r : (Balance × AccountId) × Lockup) (h : l.terminate T = .ok r) :
    r.2.termination_config = none := by
  rcases htc : l.termination_config with _ | tc
  · simp [Lockup.terminate, htc] at h
  · simp [Lockup.terminate, htc] at h
    subst h
    rfl

/-- C2: termination is exactly-once — after a successful `terminate`, the
stored lockup's termination config is consumed, every subsequent `terminate`
call on the same lockup fails (with `AlreadyTerminated` as soon as it passes
the authorization and timestamp checks), and the failed call leaves the
contract unchanged. -/
theorem terminate_exactly_once (c : Contract) (caller caller' : AccountId)
    (now now' : TimestampSec) (idx : Nat) (tt tt' : Option TimestampSec)
    (c' : Contract) (unv : Balance) (ben : AccountId)
    (h : c.terminate caller now idx tt = .ok (c', unv, ben)) :
    ((c'.lockups[idx]?).map Lockup.termination_config = some none) ∧
    (∃ e, c'.terminate caller' now' idx tt' = .error e) ∧
    (c'.okDepositWhitelist caller' = true → tt'.getD now' ≥ now' →
      c'.terminate caller' now' idx tt' = .error .AlreadyTerminated) ∧
    stepTerminate c' caller' now' idx tt' = c' := by
  obtain ⟨hok, l, r, hlk, hts, hlt, hres⟩ := terminate_ok_elim c caller now idx tt _ h
  have hc' : c' = terminatePost c idx r.2 := congrArg Prod.fst hres
  have hconfig : r.2.termination_config = none :=
    lockup_terminate_ok_config_none l (tt.getD now) r hlt
  have hstored : c'.lockups[idx]? = some r.2 := by
    rw [hc', terminatePost_lockups]
    exact getElem?_set_self c.lockups idx _ l hlk
  have hterm2 : r.2.terminate (tt'.getD now') = .error .AlreadyTerminated := by
    simp [Lockup.terminate, hconfig]
  refine ⟨by rw [hstored]; simp [hconfig], ?_, ?_, ?_⟩
  · by_cases hok' : c'.okDepositWhitelist caller'
    · by_cases hts' : tt'.getD now' ≥ now'
      · exact ⟨.AlreadyTerminated, by
          simp [Contract.terminate, hok', hstored, hts', hterm2, Bind.bind,
            Except.bind]⟩
      · exact ⟨.InvalidTimestamp, by
          simp [Contract.terminate, hok', hstored, hts', Bind.bind, Except.bind]⟩
    · simp only [Bool.not_eq_true] at hok'
      exact ⟨.Unauthorized, by
        simp [Contract.terminate, hok', Bind.bind, Except.bind]⟩
  · intro hok' hts'
    simp [Contract.terminate, hok', hstored, hts', hterm2, Bind.bind, Except.bind]
  · by_cases hok' : c'.okDepositWhitelist caller'
    · by_cases hts' : tt'.getD now' ≥ now'
      · simp [stepTerminate, Contract.terminate, hok', hstored, hts', hterm2,
          Bind.bind, Except.bind]
      · simp [stepTerminate, Contract.terminate, hok', hstored, hts', Bind.bind,
          Except.bind]
    · simp only [Bool.not_eq_true] at hok'
      simp [stepTerminate, Contract.terminate, hok', Bind.bind, Except.bind]

theorem terminate_exactly_once_witness :
    (stepTerminate terminationExampleContract "op" 0 0 (some 50)).terminate
      "op" 0 0 (some 60) = .error .AlreadyTerminated :=
  (terminate_exactly_once terminationExampleContract "op" "op" 0 0 0
    (some 50) (some 60)
    (stepTerminate terminationExampleContract "op" 0 0 (some 50)) 1000 "payer"
    rfl).2.2.1 (by decide) (by decide)

/-- The account→lockup-index mapping stores no empty index set (spec §3,
`LockupStore`). -/
def NoEmptyIndexSets (c : Contract) : Prop :=
  ∀ b s, alookup c.account_lockups b = some s → s ≠ []

theorem save_account_lockups_no_empty (c : Contract) (a : AccountId)
    (indices : List Nat) (h : NoEmptyIndexSets c) :
    NoEmptyIndexSets (c.internal_save_account_lockups a indices) := by
  intro b s hb
  by_cases hempty : indices.isEmpty
  · simp [Contract.internal_save_account_lockups, hempty] at hb
    by_cases hab : a = b
    · rw [← hab, alookup_aremove_self] at hb
      exact absurd hb (by simp)
    · rw [alookup_aremove_ne a b _ hab] at hb
      exact h b s hb
  · simp [Contract.internal_save_account_lockups, hempty] at hb
    by_cases hab : a = b
    · rw [← hab, alookup_ainsert_self] at hb
      cases hb
      simpa [List.isEmpty_iff] using hempty
    · rw [alookup_ainsert_ne a b _ _ hab] at hb
      exact h b s hb

/-- C8: the account→lockup-index mapping never stores an empty set — saving an
empty set removes the entry, saving preserves the no-empty-set invariant,
absence and empty set are observationally equivalent for both index readers,
`terminate` preserves the invariant, and a terminate that fully drains an
account's last lockup removes the account's entry. -/
theorem account_index_never_empty (c : Contract) (a : AccountId)
    (indices : List Nat) (caller : AccountId) (now : TimestampSec) (idx : Nat)
    (tt : Option TimestampSec) :
    (indices = [] →
      alookup (c.internal_save_account_lockups a indices).account_lockups a = none) ∧
    (NoEmptyIndexSets c →
      NoEmptyIndexSets (c.internal_save_account_lockups a indices)) ∧
    (∀ c₂ : Contract, c₂.lockups = c.lockups →
      (alookup c₂.account_lockups a).getD [] = (alookup c.account_lockups a).getD [] →
      c₂.internal_get_account_lockups a = c.internal_get_account_lockups a ∧
      (∀ ids, c₂.internal_get_account_lockups_by_id a ids =
        c.internal_get_account_lockups_by_id a ids)) ∧
    (∀ res, c.terminate caller now idx tt = .ok res →
      NoEmptyIndexSets c → NoEmptyIndexSets res.1) ∧
    (∀ res l r, c.terminate caller now idx tt = .ok res →
      c.lockups[idx]? = some l → l.terminate (tt.getD now) = .ok r →
      r.2.schedule.total_balance = 0 →
      ((alookup c.account_lockups r.2.account_id).getD []).erase idx = [] →
      alookup res.1.account_lockups r.2.account_id = none) := by
  refine ⟨?_, ?_, ?_, ?_, ?_⟩
  · intro hempty
    subst hempty
    simp only [Contract.internal_save_account_lockups, List.isEmpty_nil, if_true]
    exact alookup_aremove_self a c.account_lockups
  · exact save_account_lockups_no_empty c a indices
  · intro c₂ hlk hidx
    constructor
    · simp [Contract.internal_get_account_lockups, hlk, hidx]
    · intro ids
      simp [Contract.internal_get_account_lockups_by_id, hlk, hidx]
  · intro res hres hinv
    obtain ⟨hok, l, r, hlk, hts, hlt, hr⟩ :=
      terminate_ok_elim c caller now idx tt res hres
    have : res.1 = terminatePost c idx r.2 := congrArg Prod.fst hr
    rw [this]
    simp only [terminatePost]
    split
    · exact save_account_lockups_no_empty _ _ _ hinv
    · exact hinv
  · intro res l r hres hl hr hzero herase
    obtain ⟨hok, l₀, r₀, hlk₀, hts₀, hlt₀, hr₀⟩ :=
      terminate_ok_elim c caller now idx tt res hres
    rw [hl] at hlk₀
    injection hlk₀ with hll
    subst hll
    rw [hr] at hlt₀
    injection hlt₀ with hrr
    subst hrr
    rw [congrArg Prod.fst hr₀]
    simp [terminatePost, hzero, Contract.internal_save_account_lockups, herase,
      alookup_aremove_self]

theorem account_index_never_empty_witness :
    alookup ((terminationExampleContract.internal_save_account_lockups
      "alice" []).account_lockups) "alice" = none :=
  (account_index_never_empty terminationExampleContract "alice" [] "op" 0 0 none).1 rfl

/-- Expected outcome of a `claim` that settles exactly one lockup `id` holding
`l` with resolved amount `amt` (used to state the resolution claims). -/
def claimSingleOutcome (c : Contract) (caller : AccountId) (now : TimestampSec)
    (id : Nat) (l : Lockup) (amt : Balance) : Except Err ClaimOutcome :=
  let r := l.claim now amt
  .ok ⟨{ c with lockups := if r.1 > 0 then c.lockups.set id r.2 else c.lockups },
    if r.1 > 0 then [(id, r.1)] else [],
    if r.1 > 0 then r.1 else 0,
    if r.1 > 0 then .Transfer caller r.1 [(id, r.1)] else .Value 0⟩

/-- C5: the per-lockup amount passed to `Lockup::claim` is the caller-supplied
amount verbatim when one is given, and `unlocked_balance(now) - claimed_balance`
when omitted — both for a `None` entry in the caller's list and on the
no-argument all-lockups path. -/
theorem claim_amount_resolution (now : TimestampSec) (byId : List (Nat × Lockup))
    (id : Nat) (a : Balance) (l : Lockup) (c : Contract) (caller : AccountId)
    (own : List Nat) :
    (resolveClaimEntry now byId (id, some a) = (id, a)) ∧
    (alookup byId id = some l →
      resolveClaimEntry now byId (id, none) =
        (id, l.schedule.unlocked_balance now - l.claimed_balance)) ∧
    (alookup c.account_lockups caller = some own → id ∈ own →
      c.lockups[id]? = some l →
      (c.claim caller now (some [(id, some a)]) =
        claimSingleOutcome c caller now id l a) ∧
      (c.claim caller now (some [(id, none)]) =
        claimSingleOutcome c caller now id l
          (l.schedule.unlocked_balance now - l.claimed_balance)) ∧
      (own = [id] →
        c.claim caller now none =
          claimSingleOutcome c caller now id l
            (l.schedule.unlocked_balance now - l.claimed_balance))) := by
  refine ⟨rfl, ?_, ?_⟩
  · intro hid
    simp [resolveClaimEntry, hid]
  · intro hown hmem hl
    have hby : c.internal_get_account_lockups_by_id caller [id] = .ok [(id, l)] := by
      simp [Contract.internal_get_account_lockups_by_id, hown, hmem, checkOwned,
        fetchLockups, hl, Bind.bind, Except.bind, Except.map]
    refine ⟨?_, ?_, ?_⟩
    · simp [Contract.claim, hby, Bind.bind, Except.bind, List.foldl,
        resolveClaimEntry, claimLoopGo, claimLoopStep, ainsert, alookup,
        claimSingleOutcome]
      by_cases hr : (l.claim now a).1 > 0 <;>
        simp [hr, claimLoopGo, claimLoopStep]
    · simp [Contract.claim, hby, Bind.bind, Except.bind, List.foldl,
        resolveClaimEntry, claimLoopGo, claimLoopStep, ainsert, alookup,
        claimSingleOutcome, alookup_ainsert_self]
      by_cases hr : (l.claim now
          (l.schedule.unlocked_balance now - l.claimed_balance)).1 > 0 <;>
        simp [hr, claimLoopGo, claimLoopStep]
    · intro hsingle
      subst hsingle
      have hga : c.internal_get_account_lockups caller = .ok [(id, l)] := by
        simp [Contract.internal_get_account_lockups, hown, fetchLockups, hl,
          Except.map]
      simp [Contract.claim, hga, Bind.bind, Except.bind, List.foldl,
        claimLoopGo, claimLoopStep, ainsert, alookup, claimSingleOutcome]
      by_cases hr : (l.claim now
          (l.schedule.unlocked_balance now - l.claimed_balance)).1 > 0 <;>
        simp [hr, claimLoopGo, claimLoopStep]

theorem claim_amount_resolution_witness :
    terminationExampleContract.claim "alice" 150 (some [(0, some 5)]) =
      claimSingleOutcome terminationExampleContract "alice" 150 0
        ⟨"alice", ⟨[⟨0, 0⟩, ⟨100, 1000⟩]⟩, 0, some ⟨"payer", .SameAsLockupSchedule⟩⟩
        5 :=
  ((claim_amount_resolution 150 [] 0 5
    ⟨"alice", ⟨[⟨0, 0⟩, ⟨100, 1000⟩]⟩, 0, some ⟨"payer", .SameAsLockupSchedule⟩⟩
    terminationExampleContract "alice" [0]).2.2 rfl (by decide) rfl).1

theorem claimLoopGo_lines_pos (now : TimestampSec) (es : List (Nat × Balance)) :
    ∀ acc acc', claimLoopGo now es acc = .ok acc' →
      ∀ p ∈ acc'.lockup_claims, p ∈ acc.lockup_claims ∨ p.2 > 0 := by
  induction es with
  | nil =>
    intro acc acc' h p hp
    simp only [claimLoopGo] at h
    cases h
    exact Or.inl hp
  | cons e rest ih =>
    intro acc acc' h p hp
    rcases hlook : alookup acc.byId e.1 with _ | l
    · simp [claimLoopGo, claimLoopStep, hlook, Bind.bind, Except.bind] at h
    · by_cases hr : (l.claim now e.2).1 > 0
      · have hstep : claimLoopGo now rest
            ⟨ainsert e.1 (l.claim now e.2).2 acc.byId,
              acc.lockups.set e.1 (l.claim now e.2).2,
              acc.lockup_claims ++ [(e.1, (l.claim now e.2).1)],
              acc.total + (l.claim now e.2).1⟩ = .ok acc' := by
          simpa [claimLoopGo, claimLoopStep, hlook, hr, Bind.bind, Except.bind]
            using h
        rcases ih _ _ hstep p hp with hin | hpos
        · rcases List.mem_append.mp hin with hin' | hin'
          · exact Or.inl hin'
          · right
            have : p = (e.1, (l.claim now e.2).1) := by simpa using hin'
            rw [this]
            exact hr
        · exact Or.inr hpos
      · have hstep : claimLoopGo now rest
            ⟨ainsert e.1 (l.claim now e.2).2 acc.byId, acc.lockups,
              acc.lockup_claims, acc.total⟩ = .ok acc' := by
          simpa [claimLoopGo, claimLoopStep, hlook, hr, Bind.bind, Except.bind]
            using h
        exact ih _ _ hstep p hp

theorem claimLoopGo_total_mono (now : TimestampSec) (es : List (Nat × Balance)) :
    ∀ acc acc', claimLoopGo now es acc = .ok acc' →
      acc.total ≤ acc'.total ∧
      (acc'.total = acc.total →
        acc'.lockups = acc.lockups ∧ acc'.lockup_claims = acc.lockup_claims) := by
  induction es with
  | nil =>
    intro acc acc' h
    simp only [claimLoopGo] at h
    cases h
    exact ⟨le_refl _, fun _ => ⟨rfl, rfl⟩⟩
  | cons e rest ih =>
    intro acc acc' h
    rcases hlook : alookup acc.byId e.1 with _ | l
    · simp [claimLoopGo, claimLoopStep, hlook, Bind.bind, Except.bind] at h
    · by_cases hr : (l.claim now e.2).1 > 0
      · have hstep : claimLoopGo now rest
            ⟨ainsert e.1 (l.claim now e.2).2 acc.byId,
              acc.lockups.set e.1 (l.claim now e.2).2,
              acc.lockup_claims ++ [(e.1, (l.claim now e.2).1)],
              acc.total + (l.claim now e.2).1⟩ = .ok acc' := by
          simpa [claimLoopGo, claimLoopStep, hlook, hr, Bind.bind, Except.bind]
            using h
        obtain ⟨hmono, _⟩ := ih _ _ hstep
        simp only at hmono
        constructor
        · exact le_trans (Nat.le_add_right _ _) hmono
        · intro heq
          exfalso
          have h2 : acc.total + (l.claim now e.2).1 ≤ acc.total := heq ▸ hmono
          exact absurd h2 (Nat.not_le.mpr (Nat.lt_add_of_pos_right hr))
      · have hstep : claimLoopGo now rest
            ⟨ainsert e.1 (l.claim now e.2).2 acc.byId, acc.lockups,
              acc.lockup_claims, acc.total⟩ = .ok acc' := by
          simpa [claimLoopGo, claimLoopStep, hlook, hr, Bind.bind, Except.bind]
            using h
        obtain ⟨hmono, hstag⟩ := ih _ _ hstep
        exact ⟨hmono, fun heq => hstag heq⟩

theorem claim_ok_elim (c : Contract) (caller : AccountId) (now : TimestampSec)
    (amounts : Option (List (Nat × Option Balance))) (o : ClaimOutcome)
    (h : c.claim caller now amounts = .ok o) :
    ∃ cam byId acc, claimLoopGo now cam ⟨byId, c.lockups, [], 0⟩ = .ok acc ∧
      o = ⟨{ c with lockups := acc.lockups }, acc.lockup_claims, acc.total,
        if acc.total > 0 then ClaimFinish.Transfer caller acc.total acc.lockup_claims
        else ClaimFinish.Value 0⟩ := by
  rcases amounts with _ | amts
  · rcases hga : c.internal_get_account_lockups caller with e | pairs
    · simp [Contract.claim, hga, Bind.bind, Except.bind] at h
    · rcases hloop : claimLoopGo now
          ((pairs.foldl (fun m p => ainsert p.1 p.2 m) []).map (fun p =>
            (p.1, p.2.schedule.unlocked_balance now - p.2.claimed_balance)))
          ⟨pairs.foldl (fun m p => ainsert p.1 p.2 m) [], c.lockups, [], 0⟩
          with e | acc
      · simp [Contract.claim, hga, hloop, Bind.bind, Except.bind] at h
      · refine ⟨_, _, acc, hloop, ?_⟩
        simp [Contract.claim, hga, hloop, Bind.bind, Except.bind] at h
        exact h.symm
  · rcases hby : c.internal_get_account_lockups_by_id caller
        (amts.map (fun e => e.1)) with e | pairs
    · simp [Contract.claim, hby, Bind.bind, Except.bind] at h
    · rcases hloop : claimLoopGo now
          ((amts.map (resolveClaimEntry now
            (pairs.foldl (fun m p => ainsert p.1 p.2 m) []))).foldl
            (fun m p => ainsert p.1 p.2 m) [])
          ⟨pairs.foldl (fun m p => ainsert p.1 p.2 m) [], c.lockups, [], 0⟩
          with e | acc
      · simp [Contract.claim, hby, hloop, Bind.bind, Except.bind] at h
      · refine ⟨_, _, acc, hloop, ?_⟩
        simp [Contract.claim, hby, hloop, Bind.bind, Except.bind] at h
        exact h.symm

/-- C4: lockups whose computed claim increment is zero are skipped entirely —
the settlement step leaves the store, the transfer line list and the total
untouched; every transfer line of a successful `claim` is positive; and when
the aggregate claim amount is zero the call finishes immediately with
`Value 0`, no transfer lines and an unchanged lockup store. -/
theorem claim_skips_zero_increments (now : TimestampSec) (acc : CLAcc)
    (e : Nat × Balance) (l : Lockup) (c : Contract) (caller : AccountId)
    (amounts : Option (List (Nat × Option Balance))) :
    (alookup acc.byId e.1 = some l → (l.claim now e.2).1 = 0 →
      claimLoopStep now acc e =
        .ok ⟨ainsert e.1 (l.claim now e.2).2 acc.byId, acc.lockups,
          acc.lockup_claims, acc.total⟩) ∧
    (∀ o, c.claim caller now amounts = .ok o →
      (∀ p ∈ o.lockup_claims, p.2 > 0) ∧
      (o.total_claim_amount = 0 →
        o.finish = .Value 0 ∧ o.lockup_claims = [] ∧ o.state.lockups = c.lockups)) := by
  constructor
  · intro hlook hzero
    simp [claimLoopStep, hlook, hzero, Bind.bind, Except.bind]
  · intro o h
    obtain ⟨cam, byId, acc', hloop, ho⟩ := claim_ok_elim c caller now amounts o h
    subst ho
    constructor
    · intro p hp
      rcases claimLoopGo_lines_pos now cam _ _ hloop p hp with hin | hpos
      · simp at hin
      · exact hpos
    · intro htot
      simp only at htot
      obtain ⟨_, hstag⟩ := claimLoopGo_total_mono now cam _ _ hloop
      obtain ⟨hlk, hcl⟩ := hstag htot
      simp only at hlk hcl
      refine ⟨by simp [htot], by simp [hcl], by simp [hlk]⟩

theorem claim_skips_zero_increments_witness :
    (⟨terminationExampleContract, [], 0, .Value 0⟩ : ClaimOutcome).lockup_claims
      = [] :=
  (((claim_skips_zero_increments 0 ⟨[], [], [], 0⟩ (0, 0)
    ⟨"alice", ⟨[⟨0, 0⟩, ⟨100, 1000⟩]⟩, 0, some ⟨"payer", .SameAsLockupSchedule⟩⟩
    terminationExampleContract "alice" none).2
    ⟨terminationExampleContract, [], 0, .Value 0⟩ rfl).2 rfl).2.1

/-- Amount contributed by draft index `i` of a draft map. -/
def draftAmount (drafts : List (Nat × Draft)) (i : Nat) : Balance :=
  (alookup drafts i).elim 0 Draft.total_balance

/-- Sum of the member drafts' total balances of a group. -/
def groupSum (drafts : List (Nat × Draft)) (g : DraftGroup) : Balance :=
  (g.draft_indices.map (draftAmount drafts)).sum

/-- Keys of an association list are distinct. -/
def keysNodup {β : Type} (m : List (Nat × β)) : Prop :=
  (m.map Prod.fst).Nodup

/-- Combined group view during a draft loop: the per-call cache
(`draft_group_lookup`) shadows the stored groups. -/
def mergedGroups (cache st : List (Nat × DraftGroup)) (k : Nat) : Option DraftGroup :=
  match alookup cache k with
  | some g => some g
  | none => alookup st k

/-- Group view after the `delete_drafts` write-back: cached groups whose draft
set became empty disappear. -/
def prunedGroups (cache st : List (Nat × DraftGroup)) (k : Nat) : Option DraftGroup :=
  match alookup cache k with
  | some g => if g.draft_indices.isEmpty then none else some g
  | none => alookup st k

/-- Draft-group bookkeeping invariant (spec §3, DraftGroup): every reachable
group's `total_amount` is the sum of its member drafts' totals, its index set
has no duplicates, and every member index maps to a stored draft pointing back
at the group. -/
def DraftMapsInv (groups : Nat → Option DraftGroup) (drafts : List (Nat × Draft)) :
    Prop :=
  ∀ gid G, groups gid = some G →
    G.total_amount = groupSum drafts G ∧
    G.draft_indices.Nodup ∧
    ∀ i ∈ G.draft_indices, ∃ d, alookup drafts i = some d ∧ d.draft_group_id = gid

/-- The contract-level draft invariant of the spec (§3). -/
def ContractDraftInv (c : Contract) : Prop :=
  DraftMapsInv (fun k => alookup c.draft_groups k) c.drafts

theorem mem_keys_ainsert {β : Type} (k a : Nat) (v : β) (m : List (Nat × β)) :
    a ∈ (ainsert k v m).map Prod.fst ↔ a = k ∨ a ∈ m.map Prod.fst := by
  induction m with
  | nil => simp [ainsert]
  | cons p rest ih =>
    by_cases hp : p.1 = k
    · simp [ainsert, hp]
    · simp [ainsert, hp, ih]
      tauto

theorem keysNodup_ainsert {β : Type} (k : Nat) (v : β) (m : List (Nat × β))
    (h : keysNodup m) : keysNodup (ainsert k v m) := by
  induction m with
  | nil => simp [keysNodup, ainsert]
  | cons p rest ih =>
    simp only [keysNodup, List.map_cons, List.nodup_cons] at h
    by_cases hp : p.1 = k
    · simp only [keysNodup, ainsert, hp, if_true, List.map_cons, List.nodup_cons]
      exact ⟨by rw [← hp]; exact h.1, h.2⟩
    · simp only [keysNodup, ainsert, hp, if_false, List.map_cons, List.nodup_cons]
      refine ⟨?_, ih h.2⟩
      intro habs
      rcases (mem_keys_ainsert k p.1 v rest).mp habs with h1 | h1
      · exact hp h1
      · exact h.1 h1

theorem alookup_foldl_ainsert {β : Type} (cache : List (Nat × β))
    (st : List (Nat × β)) (k : Nat) (h : keysNodup cache) :
    alookup (cache.foldl (fun gs kg => ainsert kg.1 kg.2 gs) st) k =
      match alookup cache k with
      | some g => some g
      | none => alookup st k := by
  induction cache generalizing st with
  | nil => rfl
  | cons p rest ih =>
    simp only [keysNodup, List.map_cons, List.nodup_cons] at h
    simp only [List.foldl_cons]
    rw [ih (ainsert p.1 p.2 st) h.2]
    by_cases hk : p.1 = k
    · have hrest : alookup rest k = none := by
        apply alookup_eq_none_of_not_mem_keys
        rw [← hk]
        exact h.1
      rw [hrest]
      simp only [alookup, hk, if_true]
      rw [← hk, alookup_ainsert_self]
    · simp only [alookup, hk, if_false]
      rcases hr : alookup rest k with _ | g
      · rw [alookup_ainsert_ne p.1 k p.2 st hk]
      · rfl

theorem alookup_foldl_deleteWriteBack (cache : List (Nat × DraftGroup))
    (st : List (Nat × DraftGroup)) (k : Nat) (h : keysNodup cache) :
    alookup (cache.foldl deleteWriteBack st) k = prunedGroups cache st k := by
  induction cache generalizing st with
  | nil => rfl
  | cons p rest ih =>
    simp only [keysNodup, List.map_cons, List.nodup_cons] at h
    simp only [List.foldl_cons]
    rw [ih (deleteWriteBack st p) h.2]
    by_cases hk : p.1 = k
    · have hrest : alookup rest k = none := by
        apply alookup_eq_none_of_not_mem_keys
        rw [← hk]
        exact h.1
      simp only [prunedGroups, hrest, alookup, hk, if_true]
      by_cases hempty : p.2.draft_indices.isEmpty
      · simp only [deleteWriteBack]
        rw [if_pos hempty, if_pos hempty, ← hk, alookup_aremove_self]
      · simp only [deleteWriteBack]
        rw [if_neg hempty, if_neg hempty, ← hk, alookup_ainsert_self]
    · simp only [prunedGroups, alookup, hk, if_false]
      rcases hr : alookup rest k with _ | g
      · simp only [deleteWriteBack]
        by_cases hempty : p.2.draft_indices.isEmpty
        · rw [if_pos hempty, alookup_aremove_ne p.1 k st hk]
        · rw [if_neg hempty, alookup_ainsert_ne p.1 k p.2 st hk]
      · rfl

theorem mergedGroups_ainsert (gid k : Nat) (g : DraftGroup)
    (cache st : List (Nat × DraftGroup)) :
    mergedGroups (ainsert gid g cache) st k =
      if gid = k then some g else mergedGroups cache st k := by
  by_cases hk : gid = k
  · simp only [mergedGroups, hk, alookup_ainsert_self, if_true]
  · simp only [mergedGroups, alookup_ainsert_ne gid k g cache hk, hk, if_false]

theorem groupSum_ainsert_fresh (drafts : List (Nat × Draft)) (idx : Nat) (d : Draft)
    (G : DraftGroup) (hmem : ∀ i ∈ G.draft_indices, i ≠ idx) :
    groupSum (ainsert idx d drafts) G = groupSum drafts G := by
  unfold groupSum
  congr 1
  apply List.map_congr_left
  intro i hi
  simp [draftAmount, alookup_ainsert_ne idx i d drafts (fun h => hmem i hi h.symm)]

theorem groupSum_aremove_out (drafts : List (Nat × Draft)) (idx : Nat)
    (G : DraftGroup) (hmem : ∀ i ∈ G.draft_indices, i ≠ idx) :
    groupSum (aremove idx drafts) G = groupSum drafts G := by
  unfold groupSum
  congr 1
  apply List.map_congr_left
  intro i hi
  simp [draftAmount, alookup_aremove_ne idx i drafts (fun h => hmem i hi h.symm)]

theorem insertIdx_not_mem (i : Nat) (l : List Nat) (h : i ∉ l) :
    insertIdx i l = i :: l := by
  simp [insertIdx, h]

theorem createDraftsStep_ok_elim (stG : List (Nat × DraftGroup)) (acc acc' : CDAcc)
    (d : Draft) (h : createDraftsStep stG acc d = .ok acc') :
    ∃ g, mergedGroups acc.cache stG d.draft_group_id = some g ∧
      g.can_add_draft = true ∧ d.assert_new_valid = true ∧
      alookup acc.drafts acc.nextId = none ∧
      g.total_amount + d.total_balance < U128_LIMIT ∧
      acc' = ⟨ainsert d.draft_group_id
          { g with
            total_amount := g.total_amount + d.total_balance
            draft_indices := insertIdx acc.nextId g.draft_indices } acc.cache,
        acc.nextId + 1, ainsert acc.nextId d acc.drafts, acc.ids ++ [acc.nextId]⟩ := by
  rcases hc : alookup acc.cache d.draft_group_id with _ | g₀
  case none =>
    rcases hst : alookup stG d.draft_group_id with _ | g₁
    · simp [createDraftsStep, hc, hst, Bind.bind, Except.bind] at h
    · have hmerged : mergedGroups acc.cache stG d.draft_group_id = some g₁ := by
        simp [mergedGroups, hc, hst]
      by_cases hadd : g₁.can_add_draft
      case neg =>
        simp [createDraftsStep, hc, hst, hadd, Bind.bind, Except.bind] at h
      case pos =>
      by_cases hval : d.assert_new_valid
      case neg =>
        simp [createDraftsStep, hc, hst, hadd, hval, Bind.bind, Except.bind] at h
      case pos =>
      rcases hfresh : alookup acc.drafts acc.nextId with _ | d₀
      case some =>
        simp [createDraftsStep, hc, hst, hadd, hval, hfresh, Bind.bind,
          Except.bind] at h
      case none =>
      by_cases hover : g₁.total_amount + d.total_balance < U128_LIMIT
      case neg =>
        simp [createDraftsStep, hc, hst, hadd, hval, hfresh, checkedAdd, hover,
          Bind.bind, Except.bind] at h
      case pos =>
      refine ⟨g₁, hmerged, by simp [hadd], by simp [hval], rfl, hover, ?_⟩
      simp [createDraftsStep, hc, hst, hadd, hval, hfresh, checkedAdd, hover,
        Bind.bind, Except.bind] at h
      exact h.symm
  case some =>
    have hmerged : mergedGroups acc.cache stG d.draft_group_id = some g₀ := by
      simp [mergedGroups, hc]
    by_cases hadd : g₀.can_add_draft
    case neg =>
      simp [createDraftsStep, hc, hadd, Bind.bind, Except.bind] at h
    case pos =>
    by_cases hval : d.assert_new_valid
    case neg =>
      simp [createDraftsStep, hc, hadd, hval, Bind.bind, Except.bind] at h
    case pos =>
    rcases hfresh : alookup acc.drafts acc.nextId with _ | d₀
    case some =>
      simp [createDraftsStep, hc, hadd, hval, hfresh, Bind.bind, Except.bind] at h
    case none =>
    by_cases hover : g₀.total_amount + d.total_balance < U128_LIMIT
    case neg =>
      simp [createDraftsStep, hc, hadd, hval, hfresh, checkedAdd, hover,
        Bind.bind, Except.bind] at h
    case pos =>
    refine ⟨g₀, hmerged, by simp [hadd], by simp [hval], rfl, hover, ?_⟩
    simp [createDraftsStep, hc, hadd, hval, hfresh, checkedAdd, hover,
      Bind.bind, Except.bind] at h
    exact h.symm

theorem alookup_foldl_ainsert_groups (cache st : List (Nat × DraftGroup)) (k : Nat)
    (h : keysNodup cache) :
    alookup (cache.foldl (fun gs kg => ainsert kg.1 kg.2 gs) st) k =
      mergedGroups cache st k := by
  rw [alookup_foldl_ainsert cache st k h]
  rcases hc : alookup cache k with _ | g <;> simp [mergedGroups, hc]

theorem createDraftsStep_inv (stG : List (Nat × DraftGroup)) (acc acc' : CDAcc)
    (d : Draft) (h : createDraftsStep stG acc d = .ok acc')
    (hinv : DraftMapsInv (mergedGroups acc.cache stG) acc.drafts)
    (hnd : keysNodup acc.cache) :
    DraftMapsInv (mergedGroups acc'.cache stG) acc'.drafts ∧ keysNodup acc'.cache := by
  obtain ⟨g, hmg, hadd, hval, hfresh, hover, hacc⟩ :=
    createDraftsStep_ok_elim stG acc acc' d h
  subst hacc
  have hnotin : ∀ gid G, mergedGroups acc.cache stG gid = some G →
      acc.nextId ∉ G.draft_indices := by
    intro gid G hG hmem
    obtain ⟨d₀, hd₀, _⟩ := (hinv gid G hG).2.2 acc.nextId hmem
    rw [hfresh] at hd₀
    exact absurd hd₀ (by simp)
  have hgnot : acc.nextId ∉ g.draft_indices := hnotin _ g hmg
  have hins : insertIdx acc.nextId g.draft_indices = acc.nextId :: g.draft_indices :=
    insertIdx_not_mem _ _ hgnot
  constructor
  · intro gid G hG
    simp only at hG
    rw [mergedGroups_ainsert] at hG
    by_cases hk : d.draft_group_id = gid
    · rw [if_pos hk] at hG
      injection hG with hGe
      obtain ⟨hsum, hnodup, hmem⟩ := hinv _ g hmg
      have hne : ∀ i ∈ g.draft_indices, i ≠ acc.nextId := fun i hi he =>
        hgnot (he ▸ hi)
      refine ⟨?_, ?_, ?_⟩
      · rw [← hGe]
        simp only [groupSum, hins, List.map_cons, List.sum_cons]
        have h1 : draftAmount (ainsert acc.nextId d acc.drafts) acc.nextId =
            d.total_balance := by
          simp [draftAmount, alookup_ainsert_self]
        have h2 : (g.draft_indices.map
              (draftAmount (ainsert acc.nextId d acc.drafts))).sum =
            groupSum acc.drafts g := by
          have := groupSum_ainsert_fresh acc.drafts acc.nextId d g hne
          simpa [groupSum] using this
        rw [h1, h2, hsum]
        exact Nat.add_comm _ _
      · rw [← hGe]
        simp only [hins]
        exact List.Nodup.cons hgnot hnodup
      · intro i hi
        rw [← hGe] at hi
        simp only [hins, List.mem_cons] at hi
        rcases hi with hi | hi
        · subst hi
          exact ⟨d, alookup_ainsert_self _ _ _, hk⟩
        · obtain ⟨d₀, hd₀, hgid₀⟩ := hmem i hi
          have hine : acc.nextId ≠ i := fun he => hne i hi he.symm
          refine ⟨d₀, ?_, by rw [hgid₀, hk]⟩
          rw [alookup_ainsert_ne _ _ _ _ hine]
          exact hd₀
    · rw [if_neg hk] at hG
      obtain ⟨hsum, hnodup, hmem⟩ := hinv gid G hG
      have hne : ∀ i ∈ G.draft_indices, i ≠ acc.nextId := fun i hi he =>
        hnotin gid G hG (he ▸ hi)
      refine ⟨?_, hnodup, ?_⟩
      · rw [groupSum_ainsert_fresh acc.drafts acc.nextId d G hne]
        exact hsum
      · intro i hi
        obtain ⟨d₀, hd₀, hgid₀⟩ := hmem i hi
        have hine : acc.nextId ≠ i := fun he => hne i hi he.symm
        refine ⟨d₀, ?_, hgid₀⟩
        rw [alookup_ainsert_ne _ _ _ _ hine]
        exact hd₀
  · exact keysNodup_ainsert _ _ _ hnd

theorem createDraftsGo_inv (stG : List (Nat × DraftGroup)) (ds : List Draft) :
    ∀ acc acc', createDraftsGo stG ds acc = .ok acc' →
      DraftMapsInv (mergedGroups acc.cache stG) acc.drafts → keysNodup acc.cache →
      DraftMapsInv (mergedGroups acc'.cache stG) acc'.drafts ∧
        keysNodup acc'.cache := by
  induction ds with
  | nil =>
    intro acc acc' h hinv hnd
    simp only [createDraftsGo] at h
    cases h
    exact ⟨hinv, hnd⟩
  | cons d rest ih =>
    intro acc acc' h hinv hnd
    rcases hstep : createDraftsStep stG acc d with e | acc₁
    · simp [createDraftsGo, hstep, Bind.bind, Except.bind] at h
    · have hrest : createDraftsGo stG rest acc₁ = .ok acc' := by
        simpa [createDraftsGo, hstep, Bind.bind, Except.bind] using h
      obtain ⟨hinv₁, hnd₁⟩ := createDraftsStep_inv stG acc acc₁ d hstep hinv hnd
      exact ih acc₁ acc' hrest hinv₁ hnd₁

theorem create_drafts_inv (c : Contract) (caller : AccountId) (ds : List Draft)
    (r : Contract × List Nat) (h : c.create_drafts caller ds = .ok r)
    (hinv : ContractDraftInv c) : ContractDraftInv r.1 := by
  by_cases hok : c.okDraftOperator caller
  · rcases hgo : createDraftsGo c.draft_groups ds ⟨[], c.next_draft_id, c.drafts, []⟩
        with e | acc
    · simp [Contract.create_drafts, hok, hgo, Bind.bind, Except.bind] at h
    · have hinv0 : DraftMapsInv
          (mergedGroups ([] : List (Nat × DraftGroup)) c.draft_groups) c.drafts :=
        fun gid G hG => hinv gid G hG
      obtain ⟨hinv', hnd'⟩ := createDraftsGo_inv c.draft_groups ds _ acc hgo hinv0
        (by simp [keysNodup])
      have hr : r = ({ c with
          next_draft_id := acc.nextId
          drafts := acc.drafts
          draft_groups := acc.cache.foldl (fun gs kg => ainsert kg.1 kg.2 gs)
            c.draft_groups }, acc.ids) := by
        simp [Contract.create_drafts, hok, hgo, Bind.bind, Except.bind] at h
        exact h.symm
      subst hr
      intro gid G hG
      have hG' : mergedGroups acc.cache c.draft_groups gid = some G := by
        rw [← alookup_foldl_ainsert_groups acc.cache c.draft_groups gid hnd']
        exact hG
      exact hinv' gid G hG'
  · simp [Contract.create_drafts, hok, Bind.bind, Except.bind] at h

theorem deleteDraftStep_ok_elim (stG : List (Nat × DraftGroup)) (acc acc' : DDAcc)
    (draft_id : Nat) (h : deleteDraftStep stG acc draft_id = .ok acc') :
    ∃ d g, alookup acc.drafts draft_id = some d ∧
      mergedGroups acc.cache stG d.draft_group_id = some g ∧
      g.can_delete_draft = true ∧
      g.total_amount ≥ d.total_balance ∧
      draft_id ∈ g.draft_indices ∧
      acc' = ⟨ainsert d.draft_group_id
          { g with
            total_amount := g.total_amount - d.total_balance
            draft_indices := g.draft_indices.erase draft_id } acc.cache,
        aremove draft_id acc.drafts⟩ := by
  rcases hd : alookup acc.drafts draft_id with _ | d
  case none =>
    simp [deleteDraftStep, hd, Bind.bind, Except.bind] at h
  case some =>
  rcases hc : alookup acc.cache d.draft_group_id with _ | g₀
  case none =>
    rcases hst : alookup stG d.draft_group_id with _ | g₁
    · simp [deleteDraftStep, hd, hc, hst, Bind.bind, Except.bind] at h
    · have hmerged : mergedGroups acc.cache stG d.draft_group_id = some g₁ := by
        simp [mergedGroups, hc, hst]
      by_cases hdel : g₁.can_delete_draft
      case neg =>
        simp [deleteDraftStep, hd, hc, hst, hdel, Bind.bind, Except.bind] at h
      case pos =>
      by_cases hge : g₁.total_amount ≥ d.total_balance
      case neg =>
        simp [deleteDraftStep, hd, hc, hst, hdel, hge, Bind.bind, Except.bind] at h
      case pos =>
      by_cases hmem : draft_id ∈ g₁.draft_indices
      case neg =>
        simp [deleteDraftStep, hd, hc, hst, hdel, hge, hmem, Bind.bind,
          Except.bind] at h
      case pos =>
      refine ⟨d, g₁, rfl, hmerged, by simp [hdel], hge, hmem, ?_⟩
      simp [deleteDraftStep, hd, hc, hst, hdel, hge, hmem, Bind.bind,
        Except.bind] at h
      exact h.symm
  case some =>
    have hmerged : mergedGroups acc.cache stG d.draft_group_id = some g₀ := by
      simp [mergedGroups, hc]
    by_cases hdel : g₀.can_delete_draft
    case neg =>
      simp [deleteDraftStep, hd, hc, hdel, Bind.bind, Except.bind] at h
    case pos =>
    by_cases hge : g₀.total_amount ≥ d.total_balance
    case neg =>
      simp [deleteDraftStep, hd, hc, hdel, hge, Bind.bind, Except.bind] at h
    case pos =>
    by_cases hmem : draft_id ∈ g₀.draft_indices
    case neg =>
      simp [deleteDraftStep, hd, hc, hdel, hge, hmem, Bind.bind, Except.bind] at h
    case pos =>
    refine ⟨d, g₀, rfl, hmerged, by simp [hdel], hge, hmem, ?_⟩
    simp [deleteDraftStep, hd, hc, hdel, hge, hmem, Bind.bind, Except.bind] at h
    exact h.symm

theorem deleteDraftStep_inv (stG : List (Nat × DraftGroup)) (acc acc' : DDAcc)
    (draft_id : Nat) (h : deleteDraftStep stG acc draft_id = .ok acc')
    (hinv : DraftMapsInv (mergedGroups acc.cache stG) acc.drafts)
    (hnd : keysNodup acc.cache) :
    DraftMapsInv (mergedGroups acc'.cache stG) acc'.drafts ∧ keysNodup acc'.cache := by
  obtain ⟨d, g, hd, hmg, hdel, hge, hmem, hacc⟩ :=
    deleteDraftStep_ok_elim stG acc acc' draft_id h
  subst hacc
  obtain ⟨hsum, hnodup, hmember⟩ := hinv _ g hmg
  -- only the target group contains the removed index
  have honly : ∀ gid G, mergedGroups acc.cache stG gid = some G →
      gid ≠ d.draft_group_id → ∀ i ∈ G.draft_indices, i ≠ draft_id := by
    intro gid G hG hne i hi he
    obtain ⟨d', hd', hgid'⟩ := (hinv gid G hG).2.2 i hi
    rw [he, hd] at hd'
    injection hd' with hdd
    subst hdd
    exact hne hgid'.symm
  have hamount : draftAmount acc.drafts draft_id = d.total_balance := by
    simp [draftAmount, hd]
  -- sum decomposition of the target group
  have hperm : g.draft_indices.Perm (draft_id :: g.draft_indices.erase draft_id) :=
    List.perm_cons_erase hmem
  have hsplit : groupSum acc.drafts g =
      d.total_balance +
        ((g.draft_indices.erase draft_id).map (draftAmount acc.drafts)).sum := by
    unfold groupSum
    rw [(hperm.map (draftAmount acc.drafts)).sum_eq]
    simp [hamount]
  constructor
  · intro gid G hG
    simp only at hG
    rw [mergedGroups_ainsert] at hG
    by_cases hk : d.draft_group_id = gid
    · rw [if_pos hk] at hG
      injection hG with hGe
      have herasene : ∀ i ∈ g.draft_indices.erase draft_id, i ≠ draft_id :=
        fun i hi => (hnodup.mem_erase_iff.mp hi).1
      refine ⟨?_, ?_, ?_⟩
      · rw [← hGe]
        have hout : groupSum (aremove draft_id acc.drafts)
            { g with
              total_amount := g.total_amount - d.total_balance
              draft_indices := g.draft_indices.erase draft_id } =
            ((g.draft_indices.erase draft_id).map (draftAmount acc.drafts)).sum := by
          unfold groupSum
          simp only
          apply congrArg List.sum
          apply List.map_congr_left
          intro i hi
          simp [draftAmount,
            alookup_aremove_ne draft_id i acc.drafts
              (fun he => herasene i hi he.symm)]
        rw [hout]
        have : g.total_amount = d.total_balance +
            ((g.draft_indices.erase draft_id).map (draftAmount acc.drafts)).sum := by
          rw [hsum, hsplit]
        simp only
        rw [this]
        exact Nat.add_sub_cancel_left _ _
      · rw [← hGe]
        exact hnodup.erase draft_id
      · intro i hi
        rw [← hGe] at hi
        simp only at hi
        have hi' := hnodup.mem_erase_iff.mp hi
        obtain ⟨d₀, hd₀, hgid₀⟩ := hmember i hi'.2
        refine ⟨d₀, ?_, by rw [hgid₀, hk]⟩
        rw [alookup_aremove_ne draft_id i acc.drafts (fun he => hi'.1 he.symm)]
        exact hd₀
    · rw [if_neg hk] at hG
      obtain ⟨hsum', hnodup', hmember'⟩ := hinv gid G hG
      have hne : ∀ i ∈ G.draft_indices, i ≠ draft_id :=
        honly gid G hG (fun he => hk he.symm)
      refine ⟨?_, hnodup', ?_⟩
      · rw [groupSum_aremove_out acc.drafts draft_id G hne]
        exact hsum'
      · intro i hi
        obtain ⟨d₀, hd₀, hgid₀⟩ := hmember' i hi
        refine ⟨d₀, ?_, hgid₀⟩
        rw [alookup_aremove_ne draft_id i acc.drafts (fun he => hne i hi he.symm)]
        exact hd₀
  · exact keysNodup_ainsert _ _ _ hnd

theorem deleteDraftsGo_inv (stG : List (Nat × DraftGroup)) (ids : List Nat) :
    ∀ acc acc', deleteDraftsGo stG ids acc = .ok acc' →
      DraftMapsInv (mergedGroups acc.cache stG) acc.drafts → keysNodup acc.cache →
      DraftMapsInv (mergedGroups acc'.cache stG) acc'.drafts ∧
        keysNodup acc'.cache := by
  induction ids with
  | nil =>
    intro acc acc' h hinv hnd
    simp only [deleteDraftsGo] at h
    cases h
    exact ⟨hinv, hnd⟩
  | cons i rest ih =>
    intro acc acc' h hinv hnd
    rcases hstep : deleteDraftStep stG acc i with e | acc₁
    · simp [deleteDraftsGo, hstep, Bind.bind, Except.bind] at h
    · have hrest : deleteDraftsGo stG rest acc₁ = .ok acc' := by
        simpa [deleteDraftsGo, hstep, Bind.bind, Except.bind] using h
      obtain ⟨hinv₁, hnd₁⟩ := deleteDraftStep_inv stG acc acc₁ i hstep hinv hnd
      exact ih acc₁ acc' hrest hinv₁ hnd₁

theorem delete_drafts_inv (c : Contract) (ids : List Nat) (c' : Contract)
    (h : c.delete_drafts ids = .ok c') (hinv : ContractDraftInv c) :
    ContractDraftInv c' := by
  rcases hgo : deleteDraftsGo c.draft_groups ids ⟨[], c.drafts⟩ with e | acc
  · simp [Contract.delete_drafts, hgo, Bind.bind, Except.bind] at h
  · have hinv0 : DraftMapsInv
        (mergedGroups ([] : List (Nat × DraftGroup)) c.draft_groups) c.drafts :=
      fun gid G hG => hinv gid G hG
    obtain ⟨hinv', hnd'⟩ := deleteDraftsGo_inv c.draft_groups ids _ acc hgo hinv0
      (by simp [keysNodup])
    have hc' : c' = { c with
        drafts := acc.drafts
        draft_groups := acc.cache.foldl deleteWriteBack c.draft_groups } := by
      simp [Contract.delete_drafts, hgo, Bind.bind, Except.bind] at h
      exact h.symm
    subst hc'
    intro gid G hG
    have hG' : prunedGroups acc.cache c.draft_groups gid = some G := by
      rw [← alookup_foldl_deleteWriteBack acc.cache c.draft_groups gid hnd']
      exact hG
    have hGm : mergedGroups acc.cache c.draft_groups gid = some G := by
      rcases hc : alookup acc.cache gid with _ | g
      · simp only [prunedGroups, hc] at hG'
        simp [mergedGroups, hc, hG']
      · simp only [prunedGroups, hc] at hG'
        by_cases hempty : g.draft_indices.isEmpty
        · rw [if_pos hempty] at hG'
          exact absurd hG' (by simp)
        · rw [if_neg hempty] at hG'
          simp [mergedGroups, hc, hG']
    exact hinv' gid G hGm

theorem create_draft_group_inv (c : Contract) (caller : AccountId)
    (r : Contract × Nat) (h : c.create_draft_group caller = .ok r)
    (hinv : ContractDraftInv c) : ContractDraftInv r.1 := by
  by_cases hok : c.okDraftOperator caller
  · by_cases hex : (alookup c.draft_groups c.next_draft_group_id).isSome
    · simp [Contract.create_draft_group, hok, hex] at h
    · have hr : r = ({ c with
          next_draft_group_id := c.next_draft_group_id + 1
          draft_groups := ainsert c.next_draft_group_id DraftGroup.default
            c.draft_groups }, c.next_draft_group_id) := by
        simp [Contract.create_draft_group, hok, hex] at h
        exact h.symm
      subst hr
      intro gid G hG
      simp only at hG
      by_cases hk : c.next_draft_group_id = gid
      · rw [← hk, alookup_ainsert_self] at hG
        injection hG with hGe
        subst hGe
        refine ⟨rfl, List.nodup_nil, ?_⟩
        intro i hi
        simp [DraftGroup.default] at hi
      · rw [alookup_ainsert_ne _ _ _ _ hk] at hG
        exact hinv gid G hG
  · simp [Contract.create_draft_group, hok] at h

theorem discard_draft_group_inv (c : Contract) (caller : AccountId) (gid₀ : Nat)
    (c' : Contract) (h : c.discard_draft_group caller gid₀ = .ok c')
    (hinv : ContractDraftInv c) : ContractDraftInv c' := by
  by_cases hok : c.okDraftOperator caller
  · rcases hg : alookup c.draft_groups gid₀ with _ | g
    · simp [Contract.discard_draft_group, hok, hg, Bind.bind, Except.bind] at h
    · rcases hdis : g.discard with e | g'
      · simp [Contract.discard_draft_group, hok, hg, hdis, Bind.bind,
          Except.bind] at h
      · have hg' : g'.total_amount = g.total_amount ∧
            g'.draft_indices = g.draft_indices := by
          rcases hst : g.state with _ | _ | _ <;>
            simp [DraftGroup.discard, hst] at hdis <;>
            (rw [← hdis]; exact ⟨rfl, rfl⟩)
        by_cases hempty : g'.draft_indices.isEmpty
        · have hc' : c' = { c with draft_groups := aremove gid₀ c.draft_groups } := by
            simp [Contract.discard_draft_group, hok, hg, hdis, hempty, Bind.bind,
              Except.bind] at h
            exact h.symm
          subst hc'
          intro gid G hG
          simp only at hG
          by_cases hk : gid₀ = gid
          · rw [← hk, alookup_aremove_self] at hG
            exact absurd hG (by simp)
          · rw [alookup_aremove_ne _ _ _ hk] at hG
            exact hinv gid G hG
        · have hc' : c' = { c with
              draft_groups := ainsert gid₀ g' c.draft_groups } := by
            simp [Contract.discard_draft_group, hok, hg, hdis, hempty, Bind.bind,
              Except.bind] at h
            exact h.symm
          subst hc'
          intro gid G hG
          simp only at hG
          by_cases hk : gid₀ = gid
          · rw [← hk, alookup_ainsert_self] at hG
            injection hG with hGe
            subst hGe
            obtain ⟨hsum, hnodup, hmem⟩ := hinv gid₀ g hg
            rw [← hk]
            refine ⟨?_, ?_, ?_⟩
            · show g'.total_amount = groupSum c.drafts g'
              rw [hg'.1, hsum]
              unfold groupSum
              rw [hg'.2]
            · rw [hg'.2]
              exact hnodup
            · show ∀ i ∈ g'.draft_indices, ∃ d,
                alookup c.drafts i = some d ∧ d.draft_group_id = gid₀
              rw [hg'.2]
              exact hmem
          · rw [alookup_ainsert_ne _ _ _ _ hk] at hG
            exact hinv gid G hG
  · simp [Contract.discard_draft_group, hok, Bind.bind, Except.bind] at h

theorem stepDraftCall_inv (c : Contract) (call : DraftCall)
    (hinv : ContractDraftInv c) : ContractDraftInv (stepDraftCall c call) := by
  cases call with
  | createGroup caller =>
    rcases hx : c.create_draft_group caller with e | r
    · simpa [stepDraftCall, draftCallExec, hx, Except.map] using hinv
    · have : stepDraftCall c (.createGroup caller) = r.1 := by
        simp [stepDraftCall, draftCallExec, hx, Except.map]
      rw [this]
      exact create_draft_group_inv c caller r hx hinv
  | create caller ds =>
    rcases hx : c.create_drafts caller ds with e | r
    · simpa [stepDraftCall, draftCallExec, hx, Except.map] using hinv
    · have : stepDraftCall c (.create caller ds) = r.1 := by
        simp [stepDraftCall, draftCallExec, hx, Except.map]
      rw [this]
      exact create_drafts_inv c caller ds r hx hinv
  | discard caller gid =>
    rcases hx : c.discard_draft_group caller gid with e | c₁
    · simpa [stepDraftCall, draftCallExec, hx] using hinv
    · have : stepDraftCall c (.discard caller gid) = c₁ := by
        simp [stepDraftCall, draftCallExec, hx]
      rw [this]
      exact discard_draft_group_inv c caller gid c₁ hx hinv
  | delete ids =>
    rcases hx : c.delete_drafts ids with e | c₁
    · simpa [stepDraftCall, draftCallExec, hx] using hinv
    · have : stepDraftCall c (.delete ids) = c₁ := by
        simp [stepDraftCall, draftCallExec, hx]
      rw [this]
      exact delete_drafts_inv c ids c₁ hx hinv

theorem runDraftCalls_inv (calls : List DraftCall) (c : Contract)
    (hinv : ContractDraftInv c) : ContractDraftInv (runDraftCalls calls c) := by
  induction calls generalizing c with
  | nil => exact hinv
  | cons call rest ih => exact ih _ (stepDraftCall_inv c call hinv)

/-- C3: in every state reachable from the initial contract by draft-group
creation, draft creation, group discarding and draft deletion, every stored
draft group's `total_amount` equals the sum of `total_balance` over the drafts
in its current draft set — so the invariant holds after every successful
`create_drafts` or `delete_drafts` call. -/
theorem draft_group_total_invariant (wl : List AccountId)
    (dwl : Option (List AccountId)) (calls : List DraftCall) (gid : Nat)
    (G : DraftGroup)
    (h : alookup (runDraftCalls calls (initContract wl dwl)).draft_groups gid =
      some G) :
    G.total_amount = groupSum (runDraftCalls calls (initContract wl dwl)).drafts G :=
  (runDraftCalls_inv calls (initContract wl dwl)
    (fun gid₀ G₀ hG₀ => by simp [initContract, alookup] at hG₀) gid G h).1

theorem draft_group_total_invariant_witness :
    (⟨5, [0], .Pending⟩ : DraftGroup).total_amount =
      groupSum (runDraftCalls
        [.createGroup "a", .create "a" [⟨"bob", ⟨[⟨0, 0⟩, ⟨10, 5⟩]⟩, 0⟩]]
        (initContract ["a"] none)).drafts ⟨5, [0], .Pending⟩ :=
  draft_group_total_invariant ["a"] none
    [.createGroup "a", .create "a" [⟨"bob", ⟨[⟨0, 0⟩, ⟨10, 5⟩]⟩, 0⟩]] 0
    ⟨5, [0], .Pending⟩ (by decide)

/-- During `create_drafts` the cached groups keep the stored group's lifecycle
state, so the per-draft `assert_can_add_draft` check reflects the stored state. -/
theorem createDraftsGo_ok_conditions (stG : List (Nat × DraftGroup)) (ds : List Draft) :
    ∀ acc acc', createDraftsGo stG ds acc = .ok acc' →
      (∀ gid G', mergedGroups acc.cache stG gid = some G' →
        ∃ G, alookup stG gid = some G ∧ G.state = G'.state) →
      ∀ d ∈ ds, ∃ G, alookup stG d.draft_group_id = some G ∧
        G.state = .Pending ∧ d.assert_new_valid = true := by
  induction ds with
  | nil =>
    intro acc acc' _ _ d hd
    simp at hd
  | cons d₀ rest ih =>
    intro acc acc' h hlink d hd
    rcases hstep : createDraftsStep stG acc d₀ with e | acc₁
    · simp [createDraftsGo, hstep, Bind.bind, Except.bind] at h
    · have hrest : createDraftsGo stG rest acc₁ = .ok acc' := by
        simpa [createDraftsGo, hstep, Bind.bind, Except.bind] using h
      obtain ⟨g, hmg, hadd, hval, hfresh, hover, hacc⟩ :=
        createDraftsStep_ok_elim stG acc acc₁ d₀ hstep
      have hgstate : g.state = .Pending := by
        simpa [DraftGroup.can_add_draft] using hadd
      have hlink₁ : ∀ gid G', mergedGroups acc₁.cache stG gid = some G' →
          ∃ G, alookup stG gid = some G ∧ G.state = G'.state := by
        subst hacc
        intro gid G' hG'
        simp only at hG'
        rw [mergedGroups_ainsert] at hG'
        by_cases hk : d₀.draft_group_id = gid
        · rw [if_pos hk] at hG'
          injection hG' with hGe
          obtain ⟨G, hst, hsame⟩ := hlink _ g hmg
          rw [hk] at hst
          exact ⟨G, hst, by rw [← hGe]; exact hsame⟩
        · rw [if_neg hk] at hG'
          exact hlink gid G' hG'
      rcases List.mem_cons.mp hd with hde | hde
      · subst hde
        obtain ⟨G, hst, hsame⟩ := hlink _ g hmg
        exact ⟨G, hst, by rw [hsame]; exact hgstate, hval⟩
      · exact ih acc₁ acc' hrest hlink₁ d hde

/-- C6: every draft of a successful `create_drafts` targeted a stored group
that accepts drafts (`Pending`) and was itself valid; a draft whose checked
addition into the group total would reach `2^128` makes the call fail with
`Overflow`; and every failing `create_drafts` leaves the contract unchanged, so
no draft of the batch is stored. -/
theorem create_drafts_checked (c : Contract) (caller : AccountId) (d : Draft)
    (ds rest : List Draft) (G : DraftGroup) (e : Err) (r : Contract × List Nat) :
    (c.create_drafts caller ds = .ok r →
      ∀ d' ∈ ds, ∃ G', alookup c.draft_groups d'.draft_group_id = some G' ∧
        G'.state = .Pending ∧ d'.assert_new_valid = true) ∧
    (c.okDraftOperator caller = true →
      alookup c.draft_groups d.draft_group_id = some G →
      G.state = .Pending → d.assert_new_valid = true →
      alookup c.drafts c.next_draft_id = none →
      ¬(G.total_amount + d.total_balance < U128_LIMIT) →
      c.create_drafts caller (d :: rest) = .error .Overflow) ∧
    (c.create_drafts caller ds = .error e → stepCreateDrafts c caller ds = c) := by
  refine ⟨?_, ?_, ?_⟩
  · intro h
    by_cases hok : c.okDraftOperator caller
    · rcases hgo : createDraftsGo c.draft_groups ds
          ⟨[], c.next_draft_id, c.drafts, []⟩ with e₀ | acc
      · simp [Contract.create_drafts, hok, hgo, Bind.bind, Except.bind] at h
      · exact createDraftsGo_ok_conditions c.draft_groups ds _ acc hgo
          (fun gid G' hG' => ⟨G', hG', rfl⟩)
    · simp [Contract.create_drafts, hok, Bind.bind, Except.bind] at h
  · intro hok hg hstate hval hfresh hover
    have hstep : createDraftsStep c.draft_groups
        ⟨[], c.next_draft_id, c.drafts, []⟩ d = .error .Overflow := by
      simp [createDraftsStep, alookup, hg, DraftGroup.can_add_draft, hstate,
        hval, hfresh, checkedAdd, hover, Bind.bind, Except.bind]
    simp [Contract.create_drafts, hok, createDraftsGo, hstep, Bind.bind,
      Except.bind]
  · intro h
    simp [stepCreateDrafts, h]

theorem create_drafts_checked_witness :
    (Contract.create_drafts
      ⟨[], [], ["op"], [], 0, [], 1, [(0, ⟨U128_LIMIT - 1, [], .Pending⟩)]⟩
      "op" [⟨"bob", ⟨[⟨0, 0⟩, ⟨10, 5⟩]⟩, 0⟩] = .error .Overflow) :=
  (create_drafts_checked
    ⟨[], [], ["op"], [], 0, [], 1, [(0, ⟨U128_LIMIT - 1, [], .Pending⟩)]⟩
    "op" ⟨"bob", ⟨[⟨0, 0⟩, ⟨10, 5⟩]⟩, 0⟩ [] [] ⟨U128_LIMIT - 1, [], .Pending⟩
    .Overflow ((initContract [] none), [])).2.1 rfl rfl rfl rfl rfl (by decide)

/-- C7: `delete_drafts` fails with `NotFound` on an absent draft id and with
`InvalidState` when the owning group is still `Pending` or `Funded`; the
invariant checks fail when the decrement would go negative or the id was not in
the group's set; deleting a single draft removes it, decrements the group total
by its balance and removes its id, pruning the group when its draft set becomes
empty; any failing call leaves the contract unchanged. -/
theorem delete_drafts_checked (c : Contract) (id : Nat) (rest ids : List Nat)
    (d : Draft) (G : DraftGroup) (e : Err) :
    (alookup c.drafts id = none →
      c.delete_drafts (id :: rest) = .error .NotFound) ∧
    (alookup c.drafts id = some d →
      alookup c.draft_groups d.draft_group_id = some G →
      (G.state = .Pending ∨ G.state = .Funded) →
      c.delete_drafts (id :: rest) = .error .InvalidState) ∧
    (alookup c.drafts id = some d →
      alookup c.draft_groups d.draft_group_id = some G →
      G.state = .Discarded → ¬(G.total_amount ≥ d.total_balance) →
      c.delete_drafts (id :: rest) = .error .InvariantViolation) ∧
    (alookup c.drafts id = some d →
      alookup c.draft_groups d.draft_group_id = some G →
      G.state = .Discarded → G.total_amount ≥ d.total_balance →
      id ∉ G.draft_indices →
      c.delete_drafts (id :: rest) = .error .InvariantViolation) ∧
    (alookup c.drafts id = some d →
      alookup c.draft_groups d.draft_group_id = some G →
      G.state = .Discarded → G.total_amount ≥ d.total_balance →
      id ∈ G.draft_indices →
      c.delete_drafts [id] = .ok { c with
        drafts := aremove id c.drafts
        draft_groups := deleteWriteBack c.draft_groups
          (d.draft_group_id,
            { G with
              total_amount := G.total_amount - d.total_balance
              draft_indices := G.draft_indices.erase id }) } ∧
      (G.draft_indices.erase id = [] →
        alookup (stepDeleteDrafts c [id]).draft_groups d.draft_group_id = none) ∧
      (G.draft_indices.erase id ≠ [] →
        alookup (stepDeleteDrafts c [id]).draft_groups d.draft_group_id =
          some { G with
            total_amount := G.total_amount - d.total_balance
            draft_indices := G.draft_indices.erase id })) ∧
    (c.delete_drafts ids = .error e → stepDeleteDrafts c ids = c) := by
  refine ⟨?_, ?_, ?_, ?_, ?_, ?_⟩
  · intro hd
    have hstep : deleteDraftStep c.draft_groups ⟨[], c.drafts⟩ id =
        .error .NotFound := by
      simp [deleteDraftStep, hd, Bind.bind, Except.bind]
    simp [Contract.delete_drafts, deleteDraftsGo, hstep, Bind.bind, Except.bind]
  · intro hd hg hstate
    have hdel : G.can_delete_draft = false := by
      rcases hstate with hs | hs <;> simp [DraftGroup.can_delete_draft, hs]
    have hstep : deleteDraftStep c.draft_groups ⟨[], c.drafts⟩ id =
        .error .InvalidState := by
      simp [deleteDraftStep, hd, alookup, hg, hdel, Bind.bind, Except.bind]
    simp [Contract.delete_drafts, deleteDraftsGo, hstep, Bind.bind, Except.bind]
  · intro hd hg hstate hlt
    have hstep : deleteDraftStep c.draft_groups ⟨[], c.drafts⟩ id =
        .error .InvariantViolation := by
      simp [deleteDraftStep, hd, alookup, hg, DraftGroup.can_delete_draft,
        hstate, hlt, Bind.bind, Except.bind]
    simp [Contract.delete_drafts, deleteDraftsGo, hstep, Bind.bind, Except.bind]
  · intro hd hg hstate hge hnotmem
    have hstep : deleteDraftStep c.draft_groups ⟨[], c.drafts⟩ id =
        .error .InvariantViolation := by
      simp [deleteDraftStep, hd, alookup, hg, DraftGroup.can_delete_draft,
        hstate, hge, hnotmem, Bind.bind, Except.bind]
    simp [Contract.delete_drafts, deleteDraftsGo, hstep, Bind.bind, Except.bind]
  · intro hd hg hstate hge hmem
    have hstep : deleteDraftStep c.draft_groups ⟨[], c.drafts⟩ id =
        .ok ⟨[(d.draft_group_id,
            { G with
              total_amount := G.total_amount - d.total_balance
              draft_indices := G.draft_indices.erase id })],
          aremove id c.drafts⟩ := by
      simp [deleteDraftStep, hd, alookup, hg, DraftGroup.can_delete_draft,
        hstate, hge, hmem, Bind.bind, Except.bind, ainsert]
    have hcall : c.delete_drafts [id] = .ok { c with
        drafts := aremove id c.drafts
        draft_groups := deleteWriteBack c.draft_groups
          (d.draft_group_id,
            { G with
              total_amount := G.total_amount - d.total_balance
              draft_indices := G.draft_indices.erase id }) } := by
      simp [Contract.delete_drafts, deleteDraftsGo, hstep, Bind.bind, Except.bind]
    refine ⟨hcall, ?_, ?_⟩
    · intro hempty
      have hsd : stepDeleteDrafts c [id] = { c with
          drafts := aremove id c.drafts
          draft_groups := deleteWriteBack c.draft_groups
            (d.draft_group_id,
              { G with
                total_amount := G.total_amount - d.total_balance
                draft_indices := G.draft_indices.erase id }) } := by
        simp [stepDeleteDrafts, hcall]
      rw [hsd]
      have hemp : (G.draft_indices.erase id).isEmpty = true := by simp [hempty]
      show alookup (deleteWriteBack c.draft_groups _) d.draft_group_id = none
      simp only [deleteWriteBack]
      rw [if_pos hemp]
      exact alookup_aremove_self _ _
    · intro hempty
      have hsd : stepDeleteDrafts c [id] = { c with
          drafts := aremove id c.drafts
          draft_groups := deleteWriteBack c.draft_groups
            (d.draft_group_id,
              { G with
                total_amount := G.total_amount - d.total_balance
                draft_indices := G.draft_indices.erase id }) } := by
        simp [stepDeleteDrafts, hcall]
      rw [hsd]
      have hemp : ¬((G.draft_indices.erase id).isEmpty = true) := by
        simp [List.isEmpty_iff, hempty]
      show alookup (deleteWriteBack c.draft_groups _) d.draft_group_id =
        some _
      simp only [deleteWriteBack]
      rw [if_neg hemp]
      exact alookup_ainsert_self _ _ _
  · intro h
    simp [stepDeleteDrafts, h]

theorem delete_drafts_checked_witness :
    (Contract.delete_drafts
      ⟨[], [], [], [], 1, [(0, ⟨"bob", ⟨[⟨0, 0⟩, ⟨10, 5⟩]⟩, 7⟩)], 8,
        [(7, ⟨5, [0], .Pending⟩)]⟩ [0] = .error .InvalidState) :=
  (delete_drafts_checked
    ⟨[], [], [], [], 1, [(0, ⟨"bob", ⟨[⟨0, 0⟩, ⟨10, 5⟩]⟩, 7⟩)], 8,
      [(7, ⟨5, [0], .Pending⟩)]⟩ 0 [] [] ⟨"bob", ⟨[⟨0, 0⟩, ⟨10, 5⟩]⟩, 7⟩
    ⟨5, [0], .Pending⟩ .NotFound).2.1 rfl rfl (Or.inl rfl)
